import Mathlib

/-!
The programs `kfs`, a Kerberos-authenticating HTTP gateway, and `kfs-user`,
its per-user file server.

A shallow embedding of the Go sources `cmd/kfs-user/kfs-user.go`,
`cmd/kfs/kfs.go`, `cmd/kfs/kerberos.go` and `cmd/kfs/userfileserver.go`.

Go strings are modelled as lists of characters.  Everything the programs
obtain from their environment (the filesystem, the Kerberos library, the
user database, the clock, the fate of a spawned process) is an explicit
argument of the function that uses it.
-/

namespace Kfs

/-- Go `string`, as a list of characters. -/
abbrev Str := List Char

deriving instance DecidableEq for Except

/-! ## The parts of `strings`, `path` and `path/filepath` the programs call -/

/-- `strings.HasPrefix`. -/
def HasPrefix (s pre : Str) : Bool := pre.isPrefixOf s

/-- `strings.Index`: the position of the first occurrence of `sub` in `s`. -/
def Index : Str → Str → Option Nat
  | [], sub => if sub = [] then some 0 else none
  | c :: cs, sub =>
    if HasPrefix (c :: cs) sub then some 0
    else (Index cs sub).map (· + 1)

/-- `strings.Contains`. -/
def Contains (s sub : Str) : Bool := (Index s sub).isSome

/-- Worker of `splitOn`: `cur` is the element being read, reversed. -/
def splitAux (sep : Char) : Str → Str → List Str
  | [], cur => [cur.reverse]
  | c :: cs, cur =>
    if c = sep then cur.reverse :: splitAux sep cs []
    else splitAux sep cs (c :: cur)

/-- `strings.Split(s, sep)` for a one-character separator. -/
def splitOn (sep : Char) (s : Str) : List Str := splitAux sep s []

/-- `strings.Join(elems, "/")`. -/
def joinSlash : List Str → Str
  | [] => []
  | [e] => e
  | e :: es => e ++ '/' :: joinSlash es

/-- One iteration of the loop of `path.Clean` on the path element `e`.
`out` is the list of elements written so far, `dotdot` the number of leading
elements a `..` may not remove. -/
def cleanStep (rooted : Bool) (st : List Str × Nat) (e : Str) : List Str × Nat :=
  if e = [] ∨ e = ['.'] then st
  else if e = ['.', '.'] then
    if st.1.length > st.2 then (st.1.dropLast, st.2)
    else if !rooted then (st.1 ++ [e], st.1.length + 1)
    else st
  else (st.1 ++ [e], st.2)

/-- `path.Clean` (and `filepath.Clean` where the separator is `/`). -/
def Clean (path : Str) : Str :=
  if path = [] then ['.']
  else
    let rooted := path.head? = some '/'
    let out := ((splitOn '/' path).foldl (cleanStep rooted) ([], 0)).1
    if rooted then '/' :: joinSlash out
    else if out = [] then ['.']
    else joinSlash out

/-- `filepath.Separator` of the platform the programs are built for. -/
def Separator : Char := '/'

/-- `filepath.FromSlash`. -/
def FromSlash (path : Str) : Str :=
  if Separator = '/' then path
  else path.map (fun c => if c = '/' then Separator else c)

/-- `filepath.Join` of two elements. -/
def Join (a b : Str) : Str :=
  if a ≠ [] then Clean (a ++ '/' :: b)
  else if b ≠ [] then Clean b
  else []

/-! ## `kfs-user`: the sandboxed directory -/

/-- What `kfs-user` asks of the operating system.  `realpath p` is the result
of `filepath.Abs` followed by `filepath.EvalSymlinks` on `p`: the canonical
path, or the text of the error.  `openError p` is the text of the error of
`os.Open p`, or `none` when the file opens. -/
structure OS where
  realpath : Str → Except Str Str
  openError : Str → Option Str

/-- An open file: the `*os.File` returned by `os.Open name`. -/
structure File where
  name : Str
  deriving DecidableEq, Repr

/-- The type `limitDir`. -/
structure limitDir where
  dir : Str
  deriving DecidableEq, Repr

/-- Result of a call that also prints on standard output. -/
structure Printed (α : Type) where
  stdout : Str
  result : α

/-- `newLimitDir`. -/
def newLimitDir (os : OS) (path : Str) : Except Str limitDir :=
  let path := if path = [] then ['.'] else path
  match os.realpath path with
  | .error err => .error err
  | .ok clean => .ok ⟨clean⟩

/-- `limitDir.Open`: the text printed on standard output and the returned
file or error. -/
def limitDir.Open (os : OS) (d : limitDir) (name : Str) : Printed (Except Str File) :=
  if Separator ≠ '/' ∧ name.contains Separator then
    ⟨[], .error "http: invalid character in path".toList⟩
  else
    let fullName := Join d.dir (FromSlash (Clean ('/' :: name)))
    match os.realpath fullName with
    | .error err =>
      ⟨"ERROR: realpath(".toList ++ fullName ++ "): ".toList ++ err ++ ['\n'],
        .error "http: invalid path".toList⟩
    | .ok cleanPath =>
      if !HasPrefix cleanPath d.dir then
        ⟨"ERROR: ".toList ++ name ++ " is outside of allowed path ".toList ++ d.dir
            ++ ": ".toList ++ cleanPath ++ ['\n'],
          .error "http: invalid path".toList⟩
      else
        match os.openError cleanPath with
        | some err =>
          ⟨"ERROR: opening ".toList ++ cleanPath ++ ": ".toList ++ err ++ ['\n'],
            .error "http: error opening file".toList⟩
        | none => ⟨[], .ok ⟨cleanPath⟩⟩

/-- The elements of a slash-separated path, empty elements dropped. -/
def pathElements (p : Str) : List Str := (splitOn '/' p).filter (· ≠ [])

/-- The path `p` is `root` or lies below it: the elements of `root` are the
leading elements of `p`. -/
def insideRoot (root p : Str) : Bool := (pathElements root).isPrefixOf (pathElements p)

/-! ## `kfs-user`: the program -/

/-- `strings.SplitN(s, ":", 2)` when it returns two fields: the text before
the first `:` and the text after it; `none` when `s` has no `:`. -/
def splitFirstColon : Str → Option (Str × Str)
  | [] => none
  | c :: cs =>
    if c = ':' then some ([], cs)
    else (splitFirstColon cs).map (fun f => (c :: f.1, f.2))

/-- The loop of `main` over the arguments `pattern:path`: the text printed
and the handlers registered (pattern and directory), or `none` when the
program stops: `os.Exit(2)` on a bad argument, or the panic of `http.Handle`
on a pattern registered before.  `registered` holds the patterns of the
arguments already handled. -/
def mountArgs (os : OS) (registered : List Str) :
    List Str → Printed (Option (List (Str × limitDir)))
  | [] => ⟨[], some []⟩
  | arg :: rest =>
    match splitFirstColon arg with
    | none => ⟨"ERROR: invalid argument: ".toList ++ arg ++ ['\n'], none⟩
    | some (field0, exportedPath) =>
      let pattern := if Clean field0 ≠ ['/'] then Clean field0 ++ ['/'] else Clean field0
      let info := "INFO: exporting \"".toList ++ pattern ++ "\" to \"".toList
        ++ exportedPath ++ "\"\n".toList
      match newLimitDir os exportedPath with
      | .error err =>
        ⟨info ++ "ERROR: invalid argument: ".toList ++ exportedPath ++ ": ".toList
          ++ err ++ ['\n'], none⟩
      | .ok dir =>
        if pattern ∈ registered then ⟨info, none⟩
        else
          let r := mountArgs os (pattern :: registered) rest
          ⟨info ++ r.stdout, r.result.map ((pattern, dir) :: ·)⟩

/-- What happens to one run of `kfs-user` once its arguments are parsed. -/
structure ChildRun where
  /-- Result of `net.Listen`: the bound address or the text of the error. -/
  listen : Except Str Str
  /-- The calls of `Open` made while serving requests: the index of the
  handler and the name passed. -/
  opens : List (Nat × Str)
  /-- The error `srv.Serve` returns when it is not `http.ErrServerClosed`. -/
  serveError : Option Str
  /-- Whether SIGINT or SIGTERM arrives, and the error of `srv.Shutdown`. -/
  sigint : Option (Option Str)

/-- The text `Open` prints for each call made while serving. -/
def serveOutput (os : OS) (dirs : List (Str × limitDir)) : List (Nat × Str) → Str
  | [] => []
  | (i, name) :: rest =>
    (match dirs[i]? with
      | some (_, dir) => (dir.Open os name).stdout
      | none => []) ++ serveOutput os dirs rest

/-- The text `main` prints once `net.Listen` has bound `listenAddr`. -/
def startLine (listenAddr : Str) : Str :=
  "INFO: start listening on ".toList ++ listenAddr ++ ['\n']

/-- The standard output of `main` of `kfs-user`. -/
def kfsUserMain (os : OS) (args : List Str) (run : ChildRun) : Str :=
  if args = [] then "ERROR: no export file-system specified\n".toList
  else
    match mountArgs os [] args with
    | ⟨out, none⟩ => out
    | ⟨out, some dirs⟩ =>
      match run.listen with
      | .error err => out ++ "ERROR: listening on TCP: ".toList ++ err ++ ['\n']
      | .ok listenAddr =>
        out ++ startLine listenAddr ++ serveOutput os dirs run.opens
          ++ (match run.serveError with
              | some err => "ERROR: ".toList ++ err ++ ['\n']
              | none => [])
          ++ (match run.sigint with
              | some shutdownError =>
                "INFO: got SIGINT/SIGTERM signal, quitting\n".toList
                  ++ (match shutdownError with
                      | some err =>
                        "ERROR: while server shutting down: ".toList ++ err ++ ['\n']
                      | none => [])
              | none => [])

/-! ## `kfs`: reading the standard output of the child -/

/-- `dropCR` of `bufio`: drop one trailing carriage return. -/
def dropCR (line : Str) : Str :=
  if line.getLast? = some '\r' then line.dropLast else line

/-- The tokens `bufio.Scanner` returns with its default split function
`bufio.ScanLines`: the text is cut at each newline, a last line without
newline is returned unless it is empty, and one trailing carriage return is
dropped from each line.  The scanner stops at a line longer than its buffer
of 64 KiB; this limit is not modelled, the lines are taken to fit. -/
def scanLines (text : Str) : List Str :=
  let parts := splitOn '\n' text
  ((if parts.getLast? = some [] then parts.dropLast else parts).map dropCR)

/-- The literal text of `listenAddressRegexp`. -/
def listenLiteral : Str := "start listening on ".toList

/-- `listenAddressRegexp.FindStringSubmatch`, for the regular expression
`start listening on (.*)$`: the leftmost position where the literal is
followed by text without a newline up to the end of the input; the result is
the whole match and the capture group. -/
def FindStringSubmatch : Str → Option (List Str)
  | [] => none
  | c :: cs =>
    if HasPrefix (c :: cs) listenLiteral
        ∧ ¬ '\n' ∈ (c :: cs).drop listenLiteral.length then
      some [c :: cs, (c :: cs).drop listenLiteral.length]
    else FindStringSubmatch cs

/-- The Go type `user.User`. -/
structure User where
  Uid : Str
  Gid : Str
  Username : Str
  HomeDir : Str
  deriving DecidableEq, Repr

/-- The Go type `time.Timer`: the duration it was last set to and whether it
is still to fire. -/
structure Timer where
  duration : Int
  armed : Bool
  deriving DecidableEq, Repr

/-- The Go type `exec.Cmd`: `Process` is the identifier of the started
process, `none` for the nil pointer of a command that was not started. -/
structure Cmd where
  Path : Str
  Args : List Str
  runAs : User
  Process : Option Nat
  deriving DecidableEq, Repr

/-- The type `UserFileServer`.  Instants and durations are integers
(nanoseconds); `timer` and `cmd` are `none` for a nil pointer. -/
structure UserFileServer where
  Listen : Str
  Alive : Bool
  credentials : Str
  eol : Int
  user : User
  timer : Option Timer
  cmd : Option Cmd
  cmdPath : Str
  maxLifetime : Int
  routes : List (Str × Str)
  deriving DecidableEq, Repr

/-- `NewUserFileServer`. -/
def NewUserFileServer (userInfo : User) (userFileServerPath : Str) (lifetime : Int)
    (routes : List (Str × Str)) : UserFileServer :=
  { Listen := [], Alive := false, credentials := [], eol := 0, user := userInfo,
    timer := none, cmd := none, cmdPath := userFileServerPath, maxLifetime := lifetime,
    routes := routes }

/-- The body of the loop of the goroutine of `Start` that reads the standard
output of the child, on one line.  `started` tells whether the channel
`started` is closed; closing it again panics (`none`). -/
def readerStep (st : UserFileServer × Bool) (line : Str) : Option (UserFileServer × Bool) :=
  match FindStringSubmatch line with
  | some [_, m] =>
    if m ≠ [] then
      if st.2 then none
      else some ({ st.1 with Listen := m, Alive := true }, true)
    else some st
  | _ => some st

/-- The loop `for in.Scan()` of the reader over the lines of the child. -/
def readerLoop : List Str → UserFileServer × Bool → Option (UserFileServer × Bool)
  | [], st => some st
  | line :: rest, st =>
    match readerStep st line with
    | none => none
    | some st1 => readerLoop rest st1

/-- Whether the reader takes `line` for the handshake. -/
def isHandshake (line : Str) : Bool :=
  match FindStringSubmatch line with
  | some [_, m] => m ≠ []
  | _ => false

/-! ## `kfs`: the per-user file server record -/

/-- A child process spawned by the gateway: the user it was spawned for,
whether it is still running, and how many interrupt signals it was sent. -/
structure Proc where
  owner : Str
  running : Bool
  interrupts : Nat
  deriving DecidableEq, Repr

/-- What the gateway changes outside its own memory: the processes it
spawned (a process is identified by its position in the list) and the
credential files it removed. -/
structure World where
  procs : List Proc
  removed : List Str
  deriving DecidableEq, Repr

/-- Apply `f` to the process `pid`. -/
def updateProc (f : Proc → Proc) : Nat → List Proc → List Proc
  | _, [] => []
  | 0, p :: ps => f p :: ps
  | n + 1, p :: ps => p :: updateProc f n ps

/-- `Process.Signal(os.Interrupt)`: delivered when the process still runs;
the error returned for a finished process is ignored by the caller. -/
def Proc.interrupt (p : Proc) : Proc :=
  if p.running then { p with interrupts := p.interrupts + 1 } else p

/-- `u.cmd.Process.Signal(os.Interrupt)` on the process `pid`. -/
def World.interrupt (w : World) (pid : Nat) : World :=
  { w with procs := updateProc Proc.interrupt pid w.procs }

/-- `UserFileServer.RemoveCredentials`. -/
def UserFileServer.RemoveCredentials (u : UserFileServer) (w : World) :
    UserFileServer × World :=
  if u.credentials ≠ [] then
    ({ u with credentials := [] }, { w with removed := w.removed ++ [u.credentials] })
  else (u, w)

/-- The lifetime `NewCredentials` chooses. -/
def chosenLifetime (maxLifetime credLifetime : Int) : Int :=
  if maxLifetime > 0 ∧ maxLifetime < credLifetime then maxLifetime else credLifetime

/-- `UserFileServer.NewCredentials`; `now` is the reading of `time.Now()`. -/
def UserFileServer.NewCredentials (u : UserFileServer) (w : World) (now : Int)
    (credentials : Str) (credLifetime : Int) : UserFileServer × World :=
  let lifetime := chosenLifetime u.maxLifetime credLifetime
  let u1 := { u with eol := now + lifetime }
  let u2 := match u1.timer with
    | some t => { u1 with timer := some { t with duration := lifetime, armed := true } }
    | none => { u1 with timer := some { duration := lifetime, armed := true } }
  let r := u2.RemoveCredentials w
  ({ r.1 with credentials := credentials }, r.2)

/-- `UserFileServer.Shutdown`; `none` is the panic of dereferencing a nil
`u.cmd` or a nil `u.cmd.Process`. -/
def UserFileServer.Shutdown (u : UserFileServer) (w : World) :
    Option (UserFileServer × World) :=
  let r := ({ u with Alive := false } : UserFileServer).RemoveCredentials w
  match r.1.cmd with
  | none => none
  | some cmd =>
    match cmd.Process with
    | none => none
    | some pid => some (r.1, r.2.interrupt pid)

/-- Worker of `expand`: `skip` characters of a placeholder are still to be
dropped. -/
def expandAux (u : User) : Nat → Str → Str
  | _, [] => []
  | skip + 1, _ :: cs => expandAux u skip cs
  | 0, c :: cs =>
    if HasPrefix (c :: cs) "\x7b\x7bHOME\x7d\x7d".toList then u.HomeDir ++ expandAux u 7 cs
    else if HasPrefix (c :: cs) "\x7b\x7bUSER\x7d\x7d".toList then
      u.Username ++ expandAux u 7 cs
    else c :: expandAux u 0 cs

/-- `specialPatternsRegexp.ReplaceAllStringFunc` with `replace`: the home
directory and the user name are put for their placeholders. -/
def expand (u : User) (exportedPath : Str) : Str := expandAux u 0 exportedPath

/-- What happens to the command `Start` runs: `StdoutPipe` fails, `cmd.Start`
fails, or the child is spawned and prints `early` before the deadline of one
second. -/
inductive Spawn where
  | pipeError (err : Str)
  | startError (err : Str)
  | spawned (early : Str)
  deriving DecidableEq, Repr

/-- `UserFileServer.Start`: the returned error (`none` for nil), the record
and the world; the outer `none` is a panic. -/
def UserFileServer.Start (u : UserFileServer) (w : World) (now : Int) (credentials : Str)
    (lifetime : Int) (env : Spawn) : Option (Option Str × UserFileServer × World) :=
  let r := u.NewCredentials w now credentials lifetime
  let args := r.1.routes.map (fun route => route.1 ++ ':' :: expand r.1.user route.2)
  let cmd : Cmd := { Path := r.1.cmdPath, Args := args, runAs := r.1.user, Process := none }
  let u1 := { r.1 with cmd := some cmd }
  match env with
  | .pipeError err => some (some ("setting stdout pipe: ".toList ++ err), u1, r.2)
  | .startError err => some (some ("starting command: ".toList ++ err), u1, r.2)
  | .spawned early =>
    let pid := r.2.procs.length
    let w1 := { r.2 with procs := r.2.procs ++
      [{ owner := u1.user.Username, running := true, interrupts := 0 }] }
    let u2 := { u1 with cmd := some { cmd with Process := some pid } }
    match readerLoop (scanLines early) (u2, false) with
    | none => none
    | some (u3, started) =>
      if started then some (none, u3, w1)
      else
        match u3.Shutdown w1 with
        | none => none
        | some (u4, w2) => some (some "server not started after 1s".toList, u4, w2)

/-! ## `kfs`: the request handler -/

/-- The Go type `http.Header`: the values recorded under each name. -/
abbrev Header := Str → List Str

/-- `Header.Set`. -/
def Header.Set (h : Header) (key value : Str) : Header :=
  fun k => if k = key then [value] else h k

/-- `Header.Add`. -/
def Header.Add (h : Header) (key value : Str) : Header :=
  fun k => if k = key then h k ++ [value] else h k

/-- What the client receives: status code, headers and body. -/
structure Response where
  status : Nat
  header : Header
  body : Str

/-- `http.Error` on a response writer whose headers are `h`. -/
def httpError (h : Header) (error : Str) (code : Nat) : Response :=
  { status := code,
    header := (h.Set "Content-Type".toList "text/plain; charset=utf-8".toList).Set
      "X-Content-Type-Options".toList "nosniff".toList,
    body := error ++ ['\n'] }

/-- `internalServerError`. -/
def internalServerError (h : Header) : Response :=
  httpError h "Internal server error: contact your administrator.".toList 500

/-- A credential handle `*gssapi.CredId`: what `IsEmpty` and
`GetCredLifetime` return for it. -/
structure Cred where
  isEmpty : Bool
  lifetime : Except Str Int
  deriving DecidableEq

/-- The fields of `serverConfig` the handler reads. -/
structure serverConfig where
  UserFileServer : Str
  Realms : List Str
  MaxLifetime : Int
  Routes : List (Str × Str)

/-- What `server.Negotiate` returns, and the response headers it leaves. -/
structure Negotiated where
  krbusername : Str
  status : Nat
  delegatedCred : Cred
  header : Header

/-- The response `http.Get` returns from the child. -/
structure BackendResponse where
  StatusCode : Nat
  Header : List (Str × List Str)
  Body : Str

/-- What one run of `connectHandler` obtains from the request, the Kerberos
library, the user database, the clock and the child. -/
structure Env where
  negotiate : Negotiated
  /-- `r.BasicAuth()`: user name and password, `none` when `ok` is false. -/
  basicAuth : Option (Str × Str)
  /-- `server.AuthenticateUserWithPassword`. -/
  authenticate : Str → Str → Except Str Cred
  /-- `user.Lookup`. -/
  lookup : Str → Except Str User
  /-- `SaveCred`. -/
  saveCred : User → Cred → Except Str Str
  now : Int
  spawn : Spawn
  /-- `r.URL.Path`. -/
  path : Str
  /-- `http.Get` on the given URL. -/
  get : Str → Except Str BackendResponse

/-- The list `usernames` built by `connectHandler` from the Basic user
name. -/
def usernames (username : Str) (realms : List Str) : List Str :=
  if !Contains username ['@'] ∧ realms.length ≠ 0 then
    realms.foldl (fun acc realm => acc ++ [username ++ '@' :: realm]) []
  else [] ++ [username]

/-- The loop `for _, krbusername := range usernames`: the principals
`AuthenticateUserWithPassword` was called with, and the credential of the
call that returned no error (`none` when the loop runs to its end). -/
def passwordLoop (authenticate : Str → Str → Except Str Cred) (pass : Str) :
    List Str → List Str × Option Cred
  | [] => ([], none)
  | krbusername :: rest =>
    match authenticate krbusername pass with
    | .ok delegatedCred => ([krbusername], some delegatedCred)
    | .error _ =>
      let r := passwordLoop authenticate pass rest
      (krbusername :: r.1, r.2)

/-- Outcome of the `switch` of `connectHandler`: the handler has answered,
or goes on with the variables `krbusername` and `delegatedCred`. -/
inductive Auth where
  | replied (resp : Response)
  | proceed (krbusername : Str) (delegatedCred : Cred)

/-- The call of `server.Negotiate` and the `switch` that follows it in
`connectHandler`.  The variable `krbusername` of the `range` loop is local to
the loop: after `break outerswitch` the handler's `krbusername` is still the
one `Negotiate` returned. -/
def authenticate (cfg : serverConfig) (env : Env) : Auth :=
  if env.negotiate.status = 401 then
    match env.basicAuth with
    | none =>
      .replied (httpError
        ((env.negotiate.header.Set "WWW-Authenticate".toList "Negotiate".toList).Add
          "WWW-Authenticate".toList
          "Basic realm=\"Please enter your username and password.\"".toList)
        "Unauthorized.".toList 401)
    | some (username, pass) =>
      match (passwordLoop env.authenticate pass (usernames username cfg.Realms)).2 with
      | some delegatedCred => .proceed env.negotiate.krbusername delegatedCred
      | none => .replied (httpError env.negotiate.header "Unauthorized.".toList 401)
  else if env.negotiate.status ≠ 200 then
    .replied (internalServerError env.negotiate.header)
  else .proceed env.negotiate.krbusername env.negotiate.delegatedCred

/-- The principal the handler goes on with, when it does. -/
def Auth.principal : Auth → Option Str
  | .replied _ => none
  | .proceed krbusername _ => some krbusername

/-- The login `GetUser` looks up: `strings.SplitN(krbusername, "@", 2)[0]`. -/
def loginOf (krbusername : Str) : Str := krbusername.takeWhile (· ≠ '@')

/-- `GetUser`. -/
def GetUser (lookup : Str → Except Str User) (krbusername : Str) : Except Str User :=
  lookup (loginOf krbusername)

/-- The gateway: the map `userFileServers` and the world outside. -/
structure Gateway where
  userFileServers : Str → Option UserFileServer
  world : World

/-- Assignment `userFileServers[username] = fs`, also used to write back a
record changed through its pointer. -/
def Gateway.store (gw : Gateway) (username : Str) (fs : UserFileServer) (w : World) :
    Gateway :=
  { userFileServers := fun k => if k = username then some fs else gw.userFileServers k,
    world := w }

/-- The part of `connectHandler` that looks the user up in `userFileServers`
and refreshes or starts the file server: the error of `Start` (`none` for
nil), the record and the gateway; the outer `none` is a panic. -/
def ensure (cfg : serverConfig) (gw : Gateway) (userInfo : User) (now : Int)
    (krb5ccname : Str) (credLifetime : Int) (spawn : Spawn) :
    Option (Option Str × UserFileServer × Gateway) :=
  let fs := match gw.userFileServers userInfo.Username with
    | some fs => fs
    | none => NewUserFileServer userInfo cfg.UserFileServer cfg.MaxLifetime cfg.Routes
  if fs.Alive then
    let r := fs.NewCredentials gw.world now krb5ccname credLifetime
    some (none, r.1, gw.store userInfo.Username r.1 r.2)
  else
    match fs.Start gw.world now krb5ccname credLifetime spawn with
    | none => none
    | some (err, fs1, w1) => some (err, fs1, gw.store userInfo.Username fs1 w1)

/-- The loop of `connectHandler` copying the headers of the child's response;
`none` is the panic of `hvalue[0]` on an empty list. -/
def copyHeaders : List (Str × List Str) → Header → Option Header
  | [], h => some h
  | (_, []) :: _, _ => none
  | (hname, v :: vs) :: rest, h =>
    copyHeaders rest (vs.foldl (fun acc x => acc.Add hname x) (h.Set hname v))

/-- `connectHandler`: the response and the gateway afterwards; `none` is a
panic.  Log output is left out. -/
def connectHandler (cfg : serverConfig) (env : Env) (gw : Gateway) :
    Option (Response × Gateway) :=
  match authenticate cfg env with
  | .replied resp => some (resp, gw)
  | .proceed krbusername delegatedCred =>
    match GetUser env.lookup krbusername with
    | .error _ => some (internalServerError env.negotiate.header, gw)
    | .ok userInfo =>
      if delegatedCred.isEmpty then some (internalServerError env.negotiate.header, gw)
      else
        match delegatedCred.lifetime with
        | .error _ => some (internalServerError env.negotiate.header, gw)
        | .ok credLifetime =>
          match env.saveCred userInfo delegatedCred with
          | .error _ => some (internalServerError env.negotiate.header, gw)
          | .ok krb5ccname =>
            match ensure cfg gw userInfo env.now krb5ccname credLifetime env.spawn with
            | none => none
            | some (some _, _, gw1) => some (internalServerError env.negotiate.header, gw1)
            | some (none, fs, gw1) =>
              match env.get ("http://".toList ++ fs.Listen ++ '/' :: env.path) with
              | .error _ => none
              | .ok resp =>
                match copyHeaders resp.Header env.negotiate.header with
                | none => none
                | some h => some ({ status := resp.StatusCode, header := h,
                                    body := resp.Body }, gw1)

/-! ## `kfs`: the sequential step model of the registry -/

/-- The steps of the model: a request reaches the registry part of
`connectHandler`, the lifetime timer of a user's record fires, a child
process exits. -/
inductive Event where
  | request (userInfo : User) (now : Int) (krb5ccname : Str) (credLifetime : Int)
      (spawn : Spawn)
  | timerFires (username : Str)
  | childExits (pid : Nat)

/-- The goroutine of `Start` waiting on `u.timer.C`: when the timer fires it
calls `Shutdown`. -/
def timerFires (gw : Gateway) (username : Str) : Option Gateway :=
  match gw.userFileServers username with
  | none => some gw
  | some fs =>
    match fs.timer with
    | none => some gw
    | some t =>
      if t.armed then
        match ({ fs with timer := some { t with armed := false } } :
            UserFileServer).Shutdown gw.world with
        | none => none
        | some (fs1, w1) => some (gw.store username fs1 w1)
      else some gw

/-- The end of the reader goroutine of `Start`: the child `pid` exits,
`cmd.Wait` returns and the record of its user gets `Alive = false`. -/
def childExits (gw : Gateway) (pid : Nat) : Gateway :=
  match gw.world.procs[pid]? with
  | none => gw
  | some p =>
    if p.running then
      let w1 := { gw.world with
        procs := updateProc (fun q => { q with running := false }) pid gw.world.procs }
      match gw.userFileServers p.owner with
      | none => { gw with world := w1 }
      | some fs => gw.store p.owner { fs with Alive := false } w1
    else gw

/-- One step of the model; `none` is a panic of the gateway. -/
def step (cfg : serverConfig) (gw : Gateway) : Event → Option Gateway
  | .request userInfo now krb5ccname credLifetime spawn =>
    (ensure cfg gw userInfo now krb5ccname credLifetime spawn).map (·.2.2)
  | .timerFires username => timerFires gw username
  | .childExits pid => some (childExits gw pid)

/-- A sequence of steps. -/
def run (cfg : serverConfig) : Gateway → List Event → Option Gateway
  | gw, [] => some gw
  | gw, e :: es =>
    match step cfg gw e with
    | none => none
    | some gw1 => run cfg gw1 es

/-- The gateway at startup: no record, no child. -/
def Gateway.init : Gateway := { userFileServers := fun _ => none, world := ⟨[], []⟩ }

/-- The number of children spawned for `username` that are still running. -/
def runningChildren (gw : Gateway) (username : Str) : Nat :=
  (gw.world.procs.filter (fun p => p.owner = username ∧ p.running)).length

/-- The command of the record `fs` was started, and its process was spawned
for `username` and is still running. -/
def childRuns (procs : List Proc) (username : Str) (fs : UserFileServer) : Prop :=
  ∃ cmd pid p, fs.cmd = some cmd ∧ cmd.Process = some pid ∧ procs[pid]? = some p
    ∧ p.owner = username ∧ p.running = true

/-- Invariant of the registry: a record is stored under the name of its user,
and the child of a record that is alive is running. -/
def RegistryInv (gw : Gateway) : Prop :=
  ∀ username fs, gw.userFileServers username = some fs →
    fs.user.Username = username ∧ (fs.Alive = true → childRuns gw.world.procs username fs)

/-- The number of children spawned for `username` that are still running and
were never sent an interrupt signal. -/
def unsignalledRunning (gw : Gateway) (username : Str) : Nat :=
  (gw.world.procs.filter
    (fun p => p.owner = username ∧ p.running = true ∧ p.interrupts = 0)).length

/-- The exit of the child `pid` is stale: the process runs, the record of its
user is alive, and the command of that record is not this child but one
started later.  The reader of the old child then writes `Alive = false` on a
record that has moved on to another child. -/
def staleExit (gw : Gateway) (pid : Nat) : Bool :=
  match gw.world.procs[pid]? with
  | none => false
  | some p =>
    p.running &&
      (match gw.userFileServers p.owner with
        | none => false
        | some fs => fs.Alive && (fs.cmd.bind (fun c => c.Process) != some pid))

/-- No step of the run from `gw` through `evs` is a stale exit. -/
def noStaleExit (cfg : serverConfig) : Gateway → List Event → Bool
  | _, [] => true
  | gw, e :: es =>
    (match e with
      | .childExits pid => !staleExit gw pid
      | _ => true) &&
      (match step cfg gw e with
        | none => true
        | some gw1 => noStaleExit cfg gw1 es)

/-- Invariant of the registry on runs without stale exit: a running child
that was never signalled is the child of the record of its user, and that
record is alive. -/
def UnsignalledInv (gw : Gateway) : Prop :=
  ∀ pid p, gw.world.procs[pid]? = some p → p.running = true → p.interrupts = 0 →
    ∃ fs cmd, gw.userFileServers p.owner = some fs ∧ fs.Alive = true
      ∧ fs.cmd = some cmd ∧ cmd.Process = some pid

/-! ## Concrete runs -/

/-- A filesystem where `/root/link` is a symbolic link to `/rootx/a`,
`/root/out` a symbolic link to `/etc/passwd`, and every other path is its own
canonical form; every file opens. -/
def symlinkOS : OS :=
  { realpath := fun p =>
      if p = "/root/link".toList then .ok "/rootx/a".toList
      else if p = "/root/out".toList then .ok "/etc/passwd".toList
      else .ok p,
    openError := fun _ => none }

/-- A filesystem that holds the directory `/srv` and nothing below it. -/
def emptySrvOS : OS :=
  { realpath := fun p =>
      if p = "/srv".toList then .ok p
      else .error ("lstat ".toList ++ p ++ ": no such file or directory".toList),
    openError := fun _ => none }

/-- A filesystem without symbolic links where no file can be opened. -/
def deniedOS : OS :=
  { realpath := fun p => .ok p,
    openError := fun p => some ("open ".toList ++ p ++ ": permission denied".toList) }

/-- A run of `kfs-user` that binds `127.0.0.1:45678` and serves one request,
for the path `/start listening on evil`. -/
def probeRun : ChildRun :=
  { listen := .ok "127.0.0.1:45678".toList,
    opens := [(0, "/start listening on evil".toList)],
    serveError := none,
    sigint := none }

/-- The user `alice`. -/
def alice : User :=
  { Uid := "1000".toList, Gid := "1000".toList, Username := "alice".toList,
    HomeDir := "/home/alice".toList }

/-- A configuration with the realm `EXAMPLE.ORG`. -/
def exampleConfig : serverConfig :=
  { UserFileServer := "kfs-user".toList, Realms := ["EXAMPLE.ORG".toList],
    MaxLifetime := 0, Routes := [("/".toList, "\x7b\x7bHOME\x7d\x7d".toList)] }

/-- A delegated credential valid for one hour. -/
def hourCred : Cred := { isEmpty := false, lifetime := .ok 3600000000000 }

/-- The empty credential. -/
def noCred : Cred := { isEmpty := true, lifetime := .error "no credential".toList }

/-- The response headers after a negotiation that added the challenge
`WWW-Authenticate: Negotiate`. -/
def negotiateChallenge : Header :=
  fun k => if k = "WWW-Authenticate".toList then ["Negotiate".toList] else []

/-- A request without SPNEGO token carrying Basic credentials `user:pass`;
the Kerberos library accepts the password `pw` for `alice@EXAMPLE.ORG` only,
the user database knows `alice` only, the child starts and answers 200.
`challenge` is what the negotiation leaves in the response headers. -/
def basicEnv (user pass : Str) (challenge : Header) : Env :=
  { negotiate := { krbusername := [], status := 401, delegatedCred := noCred,
                   header := challenge },
    basicAuth := some (user, pass),
    authenticate := fun principal password =>
      if principal = "alice@EXAMPLE.ORG".toList ∧ password = "pw".toList then .ok hourCred
      else .error "authentication failed".toList,
    lookup := fun login =>
      if login = "alice".toList then .ok alice else .error "unknown user".toList,
    saveCred := fun _ _ => .ok "/tmp/krb5cc_1000_abcdefghij".toList,
    now := 0,
    spawn := .spawned (startLine "127.0.0.1:45678".toList),
    path := "index.html".toList,
    get := fun _ => .ok { StatusCode := 200, Header := [], Body := [] } }

/-- The two challenges of the answer to a request without credentials. -/
def bothChallenges : List Str :=
  ["Negotiate".toList, "Basic realm=\"Please enter your username and password.\"".toList]

/-- Start of a child for `alice` that completes the handshake, end of its
lifetime, then a second request of `alice`. -/
def restartEvents : List Event :=
  [.request alice 0 "/tmp/krb5cc_1000_a".toList 10
      (.spawned (startLine "127.0.0.1:40001".toList)),
   .timerFires "alice".toList,
   .request alice 11 "/tmp/krb5cc_1000_b".toList 10
      (.spawned (startLine "127.0.0.1:40002".toList))]

/-- After `restartEvents`, the second child of `alice` exits and her next
request starts a third one. -/
def restartTwiceEvents : List Event :=
  restartEvents ++
    [.childExits 1,
     .request alice 30 "/tmp/krb5cc_1000_c".toList 10
        (.spawned (startLine "127.0.0.1:40003".toList))]

/-- After `restartEvents`, the first child of `alice`, signalled but still
running beside the second, exits, and her next request arrives. -/
def staleExitEvents : List Event :=
  restartEvents ++
    [.childExits 0,
     .request alice 30 "/tmp/krb5cc_1000_c".toList 10
        (.spawned (startLine "127.0.0.1:40003".toList))]

/-- The gateway after `restartEvents`. -/
def afterRestart : Gateway :=
  (run exampleConfig Gateway.init restartEvents).getD Gateway.init

/-- The record of `alice` after `restartEvents`. -/
def aliceRecord : UserFileServer :=
  (afterRestart.userFileServers "alice".toList).getD
    (NewUserFileServer alice "kfs-user".toList 0 [])

/-- Two requests of `alice` one minute apart (time in seconds): the first,
with a ticket valid for an hour, starts her file server; the second, with a
ticket valid for five minutes, finds it alive and refreshes it. -/
def refreshEvents : List Event :=
  [.request alice 0 "/tmp/krb5cc_1000_a".toList 3600
      (.spawned (startLine "127.0.0.1:40001".toList)),
   .request alice 60 "/tmp/krb5cc_1000_b".toList 300
      (.spawned (startLine "127.0.0.1:40002".toList))]

/-- What the registry holds for `alice` after the events `evs`: whether her
record is alive, its `eol`, and the number of children spawned. -/
def aliceAfter (evs : List Event) : Option (Bool × Int × Nat) :=
  (run exampleConfig Gateway.init evs).bind (fun gw =>
    (gw.userFileServers "alice".toList).map (fun fs =>
      (fs.Alive, fs.eol, gw.world.procs.length)))

/-- A proper path element: not empty, not `.`, not `..`, and without slash. -/
def properElement (e : Str) : Prop :=
  e ≠ [] ∧ e ≠ ['.'] ∧ e ≠ ['.', '.'] ∧ '/' ∉ e

/-- The path has no two slashes in a row. -/
def noDoubleSlash : Str → Bool
  | [] => true
  | c :: cs => !(c = '/' ∧ cs.head? = some '/') && noDoubleSlash cs

/-! ## The sandboxed directory: theorems -/

/-- C1 (evaluation at the failing input): with root `/root` and `/root/link`
a symbolic link to `/rootx/a`, `Open` of `link` returns the file `/rootx/a`,
which is not inside `/root`: the test `strings.HasPrefix` compares bytes, not
path elements. -/
theorem open_accepts_sibling_of_root :
    (limitDir.Open symlinkOS ⟨"/root".toList⟩ "link".toList).result
        = .ok ⟨"/rootx/a".toList⟩
      ∧ insideRoot "/root".toList "/rootx/a".toList = false := by
  constructor <;> decide

/-- C6 as stated fails: where the canonical path lies inside the root and
`os.Open` fails, `Open` returns an error that is not `http: invalid path`. -/
theorem open_failure_not_invalid_path :
    (limitDir.Open deniedOS ⟨"/srv".toList⟩ "secret".toList).result
        = .error "http: error opening file".toList
      ∧ (limitDir.Open deniedOS ⟨"/srv".toList⟩ "secret".toList).result
        ≠ .error "http: invalid path".toList := by
  constructor <;> decide

/-- C6 (amended): a failure of the canonicalisation (a file that does not
exist included) or of the prefix check returns the error `http: invalid path`;
a failure of the final `os.Open` returns the error `http: error opening file`. -/
theorem open_error_values (os : OS) (d : limitDir) (name : Str) :
    (∀ err, os.realpath (Join d.dir (FromSlash (Clean ('/' :: name)))) = .error err →
      (d.Open os name).result = .error "http: invalid path".toList)
    ∧ (∀ cleanPath, os.realpath (Join d.dir (FromSlash (Clean ('/' :: name)))) = .ok cleanPath →
        HasPrefix cleanPath d.dir = false →
        (d.Open os name).result = .error "http: invalid path".toList)
    ∧ (∀ cleanPath err,
        os.realpath (Join d.dir (FromSlash (Clean ('/' :: name)))) = .ok cleanPath →
        HasPrefix cleanPath d.dir = true → os.openError cleanPath = some err →
        (d.Open os name).result = .error "http: error opening file".toList) := by
  have hsep : ¬ (Separator ≠ '/' ∧ name.contains Separator = true) := by
    intro h; exact h.1 rfl
  refine ⟨?_, ?_, ?_⟩
  · intro err h
    simp only [limitDir.Open, hsep, if_false, h]
  · intro cleanPath h hp
    simp only [limitDir.Open, hsep, if_false, h, hp]
    rfl
  · intro cleanPath err h hp ho
    simp only [limitDir.Open, hsep, if_false, h, hp, ho]
    rfl

/-- Witness of `open_error_values`: a missing file, a symbolic link leaving
the root, and a file that cannot be opened. -/
theorem open_error_values_witness :
    (limitDir.Open emptySrvOS ⟨"/srv".toList⟩ "nofile".toList).result
        = .error "http: invalid path".toList
    ∧ (limitDir.Open symlinkOS ⟨"/root".toList⟩ "out".toList).result
        = .error "http: invalid path".toList
    ∧ (limitDir.Open deniedOS ⟨"/srv".toList⟩ "secret".toList).result
        = .error "http: error opening file".toList :=
  ⟨(open_error_values emptySrvOS ⟨"/srv".toList⟩ "nofile".toList).1
      ("lstat /srv/nofile: no such file or directory".toList) (by decide),
   (open_error_values symlinkOS ⟨"/root".toList⟩ "out".toList).2.1
      "/etc/passwd".toList (by decide) (by decide),
   (open_error_values deniedOS ⟨"/srv".toList⟩ "secret".toList).2.2
      "/srv/secret".toList "open /srv/secret: permission denied".toList
      (by decide) (by decide) (by decide)⟩

/-! ## The handshake: theorems -/

/-- C2 (evaluation at the failing input): a child exporting `/srv` that
serves one request for the missing file `/start listening on evil` prints two
lines the reader takes for the handshake, the announcement of the bound
address and the error line of `Open` that quotes the requested path; the
reader of `Start` records the address on the first and panics on the second,
closing the channel `started` again. -/
theorem handshake_matched_twice :
    (scanLines (kfsUserMain emptySrvOS ["/:/srv".toList] probeRun)).map isHandshake
        = [false, true, true]
      ∧ (readerLoop ((scanLines (kfsUserMain emptySrvOS ["/:/srv".toList] probeRun)).take 2)
          (NewUserFileServer alice "kfs-user".toList 0 [], false)).map
            (fun st => (st.1.Listen, st.1.Alive, st.2))
          = some ("127.0.0.1:45678".toList, true, true)
      ∧ readerLoop (scanLines (kfsUserMain emptySrvOS ["/:/srv".toList] probeRun))
          (NewUserFileServer alice "kfs-user".toList 0 [], false) = none := by
  refine ⟨?_, ?_, ?_⟩ <;> decide

theorem splitAux_line (sep : Char) (s cur rest : Str) (h : sep ∉ s) :
    splitAux sep (s ++ sep :: rest) cur = (cur.reverse ++ s) :: splitAux sep rest [] := by
  induction s generalizing cur with
  | nil => simp [splitAux]
  | cons c cs ih =>
    have hc : c ≠ sep := fun e => h (by simp [e])
    have hcs : sep ∉ cs := fun e => h (by simp [e])
    simp [splitAux, hc, ih (c :: cur) hcs]

theorem scanLines_single (line : Str) (hn : '\n' ∉ line) (hr : line.getLast? ≠ some '\r') :
    scanLines (line ++ ['\n']) = [line] := by
  have h := splitAux_line '\n' line [] [] hn
  simp only [List.reverse_nil, List.nil_append] at h
  simp [scanLines, splitOn, h, splitAux, dropCR, hr]

theorem findStringSubmatch_at (s : Str) (hn : '\n' ∉ s) :
    FindStringSubmatch (listenLiteral ++ s) = some [listenLiteral ++ s, s] := by
  have hp : HasPrefix (listenLiteral ++ s) listenLiteral = true := by
    simp [HasPrefix]
  have hd : (listenLiteral ++ s).drop listenLiteral.length = s := by simp
  have hc : listenLiteral ++ s = 's' :: ("tart listening on ".toList ++ s) := rfl
  rw [hc, FindStringSubmatch, ← hc, hd]
  simp [hp, hn]

/-- C10: for every non-empty listen address `a` without newline or carriage
return, the text the child prints after binding `a` reaches the reader as the
single line `INFO: start listening on a`; the handshake expression matches it
with capture group `a`, and the reader records `Listen = a`, sets
`Alive = true` and closes `started`.  The line
`start listening on 127.0.0.1:45678` yields `127.0.0.1:45678`. -/
theorem handshake_round_trip (a : Str) (hne : a ≠ []) (hn : '\n' ∉ a) (hr : '\r' ∉ a)
    (u : UserFileServer) :
    scanLines (startLine a) = ["INFO: start listening on ".toList ++ a]
      ∧ FindStringSubmatch ("INFO: start listening on ".toList ++ a)
          = some ["start listening on ".toList ++ a, a]
      ∧ readerLoop (scanLines (startLine a)) (u, false)
          = some ({ u with Listen := a, Alive := true }, true)
      ∧ FindStringSubmatch "start listening on 127.0.0.1:45678".toList
          = some ["start listening on 127.0.0.1:45678".toList, "127.0.0.1:45678".toList] := by
  have hline : scanLines (startLine a) = ["INFO: start listening on ".toList ++ a] := by
    have hl : '\n' ∉ "INFO: start listening on ".toList ++ a := by
      intro h
      rcases List.mem_append.1 h with h | h
      · revert h; decide
      · exact hn h
    have hlast : ("INFO: start listening on ".toList ++ a).getLast? ≠ some '\r' := by
      rw [List.getLast?_append_of_ne_nil _ hne]
      intro h
      exact hr (List.mem_of_getLast?_eq_some h)
    have := scanLines_single _ hl hlast
    simpa [startLine, List.append_assoc] using this
  have hfind : FindStringSubmatch ("INFO: start listening on ".toList ++ a)
      = some ["start listening on ".toList ++ a, a] := by
    have h := findStringSubmatch_at a hn
    have e : "INFO: start listening on ".toList ++ a
        = 'I' :: 'N' :: 'F' :: 'O' :: ':' :: ' ' :: (listenLiteral ++ a) := rfl
    rw [e]
    have np : ∀ (c : Char) (rest : Str), c ≠ 's' →
        FindStringSubmatch (c :: rest) = FindStringSubmatch rest := by
      intro c rest hc
      have : HasPrefix (c :: rest) listenLiteral = false := by
        have hl : listenLiteral = 's' :: "tart listening on ".toList := rfl
        rw [hl]
        simp [HasPrefix, List.isPrefixOf, Ne.symm hc]
      rw [FindStringSubmatch]
      simp [this]
    rw [np _ _ (by decide), np _ _ (by decide), np _ _ (by decide), np _ _ (by decide),
      np _ _ (by decide), np _ _ (by decide)]
    exact h
  refine ⟨hline, hfind, ?_, by decide⟩
  rw [hline, readerLoop, readerStep, hfind]
  simp [readerLoop, hne]

/-- Witness of `handshake_round_trip` at the address `127.0.0.1:45678`. -/
theorem handshake_round_trip_witness :
    readerLoop (scanLines (startLine "127.0.0.1:45678".toList))
        (NewUserFileServer alice "kfs-user".toList 0 [], false)
      = some ({ NewUserFileServer alice "kfs-user".toList 0 [] with
                Listen := "127.0.0.1:45678".toList, Alive := true }, true) :=
  (handshake_round_trip "127.0.0.1:45678".toList (by decide) (by decide) (by decide)
    (NewUserFileServer alice "kfs-user".toList 0 [])).2.2.1

/-! ## Authentication: theorems -/

/-- C3 (evaluation at the failing input): with the realm `EXAMPLE.ORG`, no
SPNEGO token and the Basic credentials `alice:pw`, password authentication
succeeds for the candidate `alice@EXAMPLE.ORG`, yet the principal the handler
goes on with is the empty name `Negotiate` returned, not that candidate:
`GetUser` looks up the empty login and the request ends in a 500. -/
theorem basic_fallback_loses_principal :
    passwordLoop (basicEnv "alice".toList "pw".toList negotiateChallenge).authenticate
        "pw".toList (usernames "alice".toList exampleConfig.Realms)
        = (["alice@EXAMPLE.ORG".toList], some hourCred)
      ∧ (authenticate exampleConfig
          (basicEnv "alice".toList "pw".toList negotiateChallenge)).principal = some []
      ∧ loginOf "alice@EXAMPLE.ORG".toList = "alice".toList
      ∧ (connectHandler exampleConfig
          (basicEnv "alice".toList "pw".toList negotiateChallenge) Gateway.init).map
            (fun r => r.1.status) = some 500 := by
  refine ⟨?_, ?_, ?_, ?_⟩ <;> decide

/-- C7 (evaluation at the failing input): when the Basic credentials fail for
every candidate the handler answers 401 and leaves the `WWW-Authenticate`
header as the negotiation left it, one `Negotiate` challenge or none, without
the `Basic` challenge; a request without Basic credentials gets both. -/
theorem failed_basic_lacks_challenges :
    (connectHandler exampleConfig
        (basicEnv "alice".toList "wrong".toList negotiateChallenge) Gateway.init).map
          (fun r => (r.1.status, r.1.header "WWW-Authenticate".toList))
        = some (401, ["Negotiate".toList])
      ∧ (connectHandler exampleConfig
          (basicEnv "alice".toList "wrong".toList (fun _ => [])) Gateway.init).map
            (fun r => (r.1.status, r.1.header "WWW-Authenticate".toList))
          = some (401, [])
      ∧ (connectHandler exampleConfig
          { basicEnv [] [] (fun _ => []) with basicAuth := none } Gateway.init).map
            (fun r => (r.1.status, r.1.header "WWW-Authenticate".toList))
          = some (401, bothChallenges) := by
  refine ⟨?_, ?_, ?_⟩ <;> decide

theorem foldl_append_singleton {α β : Type} (f : α → β) (l : List α) (init : List β) :
    l.foldl (fun acc x => acc ++ [f x]) init = init ++ l.map f := by
  induction l generalizing init with
  | nil => simp
  | cons x xs ih => simp [ih]

theorem contains_at_iff (s : Str) : Contains s ['@'] = true ↔ '@' ∈ s := by
  unfold Contains
  induction s with
  | nil => simp [Index]
  | cons c cs ih =>
    by_cases hc : c = '@'
    · subst hc
      simp [Index, HasPrefix, List.isPrefixOf]
    · have hc2 : ¬ '@' = c := fun e => hc e.symm
      have : HasPrefix (c :: cs) ['@'] = false := by
        simp [HasPrefix, List.isPrefixOf, hc2]
      simp only [Index, this]
      simp [hc2, ← ih]

/-- C9: the candidates built from the Basic user name `u` and the realms `R`
are `[u]` when `u` contains `@` or `R` is empty, and otherwise `u@r` for each
`r` of `R`, in the order of `R` and as many as `R` has; the passwords are
tried on the candidates in that order up to the first success, whose
credential is the result, and on no candidate after it.  With the realms
`[A, B]`, `alice` gives `alice@A, alice@B` and `alice@C` gives `alice@C`. -/
theorem realm_expansion (u : Str) (R : List Str) (auth : Str → Str → Except Str Cred)
    (pass : Str) :
    usernames u R
        = (if '@' ∈ u ∨ R = [] then [u] else R.map (fun r => u ++ '@' :: r))
      ∧ (usernames u R).length = (if '@' ∈ u ∨ R = [] then 1 else R.length)
      ∧ (passwordLoop auth pass (usernames u R)).1
          = (usernames u R).takeWhile (fun k => !(auth k pass).toBool)
            ++ ((usernames u R).dropWhile (fun k => !(auth k pass).toBool)).take 1
      ∧ (passwordLoop auth pass (usernames u R)).2
          = ((usernames u R).find? (fun k => (auth k pass).toBool)).bind
              (fun k => (auth k pass).toOption)
      ∧ usernames "alice".toList ["A".toList, "B".toList]
          = ["alice@A".toList, "alice@B".toList]
      ∧ usernames "alice@C".toList ["A".toList, "B".toList] = ["alice@C".toList] := by
  have hu : usernames u R
      = (if '@' ∈ u ∨ R = [] then [u] else R.map (fun r => u ++ '@' :: r)) := by
    unfold usernames
    by_cases hat : '@' ∈ u
    · have : Contains u ['@'] = true := (contains_at_iff u).2 hat
      simp [this, hat]
    · have : Contains u ['@'] = false := by
        cases h : Contains u ['@'] with
        | false => rfl
        | true => exact absurd ((contains_at_iff u).1 h) hat
      by_cases hR : R = []
      · simp [this, hat, hR]
      · simp [this, hat, hR, foldl_append_singleton]
  have hloop : ∀ l : List Str,
      (passwordLoop auth pass l).1
          = l.takeWhile (fun k => !(auth k pass).toBool)
            ++ (l.dropWhile (fun k => !(auth k pass).toBool)).take 1
        ∧ (passwordLoop auth pass l).2
          = (l.find? (fun k => (auth k pass).toBool)).bind
              (fun k => (auth k pass).toOption) := by
    intro l
    induction l with
    | nil => simp [passwordLoop]
    | cons k ks ih =>
      cases h : auth k pass with
      | ok c =>
        simp [passwordLoop, h, Except.toBool, List.takeWhile, List.dropWhile, List.find?,
          Except.toOption]
      | error e =>
        simp [passwordLoop, h, Except.toBool, List.takeWhile, List.dropWhile, List.find?,
          ih.1, ih.2]
  refine ⟨hu, ?_, (hloop _).1, (hloop _).2, by decide, by decide⟩
  rw [hu]
  split <;> simp

/-! ## The per-user file server: theorems -/

/-- C4 (evaluation at the failing input): when `cmd.Start` fails to spawn the
child, `Start` returns an error leaving a command without process in the
record, and `Shutdown` on that record panics on the nil process; in the
registry, the lifetime timer armed by that `Start` leads to the same panic. -/
theorem shutdown_panics_after_failed_spawn :
    ((NewUserFileServer alice "kfs-user".toList 0 []).Start ⟨[], []⟩ 0
        "/tmp/krb5cc_1000_a".toList 10 (.startError "no such file".toList)).map
          (fun r => (r.1.isSome, r.2.1.cmd.map (fun c => c.Process), r.2.1.Shutdown r.2.2))
        = some (true, some none, none)
      ∧ (run exampleConfig Gateway.init
          [.request alice 0 "/tmp/krb5cc_1000_a".toList 10
              (.startError "no such file".toList),
           .timerFires "alice".toList]).isNone = true := by
  constructor <;> decide

/-- C8: `NewCredentials` chooses the lifetime `min m t` when the maximum
lifetime `m` of the record is positive and the ticket lifetime `t` otherwise
(so `t` when `m = 0`), sets `eol` to the clock reading plus the chosen
lifetime, and leaves the timer, created or reset, armed with that same
duration. -/
theorem newCredentials_lifetime (u : UserFileServer) (w : World) (now : Int)
    (credentials : Str) (t : Int) :
    chosenLifetime u.maxLifetime t = (if u.maxLifetime > 0 then min u.maxLifetime t else t)
      ∧ (u.NewCredentials w now credentials t).1.eol
          = now + (if u.maxLifetime > 0 then min u.maxLifetime t else t)
      ∧ (u.NewCredentials w now credentials t).1.timer
          = some { duration := if u.maxLifetime > 0 then min u.maxLifetime t else t,
                   armed := true } := by
  have hc : chosenLifetime u.maxLifetime t
      = (if u.maxLifetime > 0 then min u.maxLifetime t else t) := by
    unfold chosenLifetime
    by_cases hm : u.maxLifetime > 0
    · by_cases hlt : u.maxLifetime < t
      · simp [hm, hlt, min_eq_left (le_of_lt hlt)]
      · simp [hm, hlt, min_eq_right (not_lt.1 hlt)]
    · simp [hm]
  refine ⟨hc, ?_, ?_⟩
  · rw [← hc]
    unfold UserFileServer.NewCredentials UserFileServer.RemoveCredentials
    cases u.timer <;> by_cases hcr : u.credentials = [] <;> simp [hcr]
  · rw [← hc]
    unfold UserFileServer.NewCredentials UserFileServer.RemoveCredentials
    cases u.timer <;> by_cases hcr : u.credentials = [] <;> simp [hcr]

/-! ## The registry: theorems -/

/-- C5 as stated fails: after the lifetime timer has fired, the first child
has been sent SIGINT but has not exited yet when the next request of the same
user starts a second child: two children of `alice` are running. -/
theorem two_children_after_restart :
    (run exampleConfig Gateway.init restartEvents).map
        (fun gw => (runningChildren gw "alice".toList, gw.world.procs))
      = some (2, [{ owner := "alice".toList, running := true, interrupts := 1 },
                  { owner := "alice".toList, running := true, interrupts := 0 }]) := by
  decide

theorem getElem?_updateProc (f : Proc → Proc) (n m : Nat) (l : List Proc) :
    (updateProc f n l)[m]? = if m = n then l[m]?.map f else l[m]? := by
  induction l generalizing n m with
  | nil => cases n <;> simp [updateProc]
  | cons p ps ih =>
    cases n with
    | zero =>
      cases m with
      | zero => simp [updateProc]
      | succ m => simp [updateProc]
    | succ n =>
      cases m with
      | zero => simp [updateProc]
      | succ m => simp [updateProc, ih]

theorem length_updateProc (f : Proc → Proc) (n : Nat) (l : List Proc) :
    (updateProc f n l).length = l.length := by
  induction l generalizing n with
  | nil => cases n <;> simp [updateProc]
  | cons p ps ih => cases n <;> simp [updateProc, ih]

theorem childRuns_append {procs : List Proc} {username : Str} {fs : UserFileServer}
    (l : List Proc) (h : childRuns procs username fs) : childRuns (procs ++ l) username fs := by
  obtain ⟨cmd, pid, p, h1, h2, h3, h4, h5⟩ := h
  refine ⟨cmd, pid, p, h1, h2, ?_, h4, h5⟩
  have hlt : pid < procs.length := by
    rcases Nat.lt_or_ge pid procs.length with hlt | hge
    · exact hlt
    · rw [List.getElem?_eq_none hge] at h3; cases h3
  rw [List.getElem?_append_left hlt]; exact h3

theorem childRuns_interrupt {procs : List Proc} {username : Str} {fs : UserFileServer}
    (n : Nat) (h : childRuns procs username fs) :
    childRuns (updateProc Proc.interrupt n procs) username fs := by
  obtain ⟨cmd, pid, p, h1, h2, h3, h4, h5⟩ := h
  by_cases e : pid = n
  · refine ⟨cmd, pid, p.interrupt, h1, h2, ?_, ?_, ?_⟩
    · rw [getElem?_updateProc, if_pos e, h3]; rfl
    · unfold Proc.interrupt; split <;> simp [h4]
    · unfold Proc.interrupt; split <;> simp [h5]
  · exact ⟨cmd, pid, p, h1, h2, by rw [getElem?_updateProc, if_neg e, h3], h4, h5⟩

theorem childRuns_exit_other {procs : List Proc} {username : Str} {fs : UserFileServer}
    (n : Nat) (q : Proc) (hq : procs[n]? = some q) (hne : q.owner ≠ username)
    (h : childRuns procs username fs) :
    childRuns (updateProc (fun r => { r with running := false }) n procs) username fs := by
  obtain ⟨cmd, pid, p, h1, h2, h3, h4, h5⟩ := h
  have e : pid ≠ n := by
    intro e
    subst e
    rw [h3] at hq
    cases hq
    exact hne h4
  exact ⟨cmd, pid, p, h1, h2, by rw [getElem?_updateProc, if_neg e, h3], h4, h5⟩

theorem childRuns_congr {procs : List Proc} {username : Str} {fs fs1 : UserFileServer}
    (hc : fs1.cmd = fs.cmd) (h : childRuns procs username fs) :
    childRuns procs username fs1 := by
  obtain ⟨cmd, pid, p, h1, h2, h3, h4, h5⟩ := h
  exact ⟨cmd, pid, p, by rw [hc, h1], h2, h3, h4, h5⟩

theorem removeCredentials_facts (u : UserFileServer) (w : World) :
    (u.RemoveCredentials w).1.Alive = u.Alive ∧ (u.RemoveCredentials w).1.cmd = u.cmd
      ∧ (u.RemoveCredentials w).1.user = u.user
      ∧ (u.RemoveCredentials w).1.routes = u.routes
      ∧ (u.RemoveCredentials w).2.procs = w.procs := by
  unfold UserFileServer.RemoveCredentials
  split <;> simp

theorem newCredentials_facts (u : UserFileServer) (w : World) (now : Int)
    (credentials : Str) (t : Int) :
    (u.NewCredentials w now credentials t).1.Alive = u.Alive
      ∧ (u.NewCredentials w now credentials t).1.cmd = u.cmd
      ∧ (u.NewCredentials w now credentials t).1.user = u.user
      ∧ (u.NewCredentials w now credentials t).2.procs = w.procs := by
  unfold UserFileServer.NewCredentials
  cases u.timer <;> simp [removeCredentials_facts]

theorem shutdown_facts {u u1 : UserFileServer} {w w1 : World}
    (h : u.Shutdown w = some (u1, w1)) :
    u1.Alive = false ∧ u1.cmd = u.cmd ∧ u1.user = u.user
      ∧ ∃ pid, w1.procs = updateProc Proc.interrupt pid w.procs := by
  unfold UserFileServer.Shutdown at h
  have hf := removeCredentials_facts { u with Alive := false } w
  revert h
  generalize ({ u with Alive := false } : UserFileServer).RemoveCredentials w = r at hf ⊢
  intro h
  dsimp only at h
  cases hc : r.1.cmd with
  | none => rw [hc] at h; cases h
  | some cmd =>
    rw [hc] at h
    dsimp only at h
    cases hp : cmd.Process with
    | none => rw [hp] at h; cases h
    | some pid =>
      rw [hp] at h
      cases h
      exact ⟨hf.1, hf.2.1, hf.2.2.1, pid, by simp [World.interrupt, hf.2.2.2.2]⟩

theorem readerStep_facts {st st1 : UserFileServer × Bool} {line : Str}
    (h : readerStep st line = some st1) :
    st1.1.cmd = st.1.cmd ∧ st1.1.user = st.1.user := by
  unfold readerStep at h
  split at h
  · split at h
    · split at h
      · cases h
      · cases h; exact ⟨rfl, rfl⟩
    · cases h; exact ⟨rfl, rfl⟩
  · cases h; exact ⟨rfl, rfl⟩

theorem readerLoop_facts {lines : List Str} {st st1 : UserFileServer × Bool}
    (h : readerLoop lines st = some st1) :
    st1.1.cmd = st.1.cmd ∧ st1.1.user = st.1.user := by
  induction lines generalizing st with
  | nil => simp [readerLoop] at h; subst h; exact ⟨rfl, rfl⟩
  | cons line rest ih =>
    rw [readerLoop] at h
    cases hs : readerStep st line with
    | none => rw [hs] at h; cases h
    | some st2 =>
      rw [hs] at h
      have h1 := readerStep_facts hs
      have h2 := ih h
      exact ⟨h2.1.trans h1.1, h2.2.trans h1.2⟩

theorem start_facts {u u1 : UserFileServer} {w w1 : World} {now t : Int} {cc : Str}
    {env : Spawn} {err : Option Str} {key : Str}
    (hkey : u.user.Username = key) (hal : u.Alive = false)
    (h : u.Start w now cc t env = some (err, u1, w1)) :
    u1.user.Username = key ∧ (u1.Alive = true → childRuns w1.procs key u1)
      ∧ (∀ username fs, childRuns w.procs username fs → childRuns w1.procs username fs)
      ∧ w1.procs.length ≤ w.procs.length + 1 := by
  have hf := newCredentials_facts u w now cc t
  unfold UserFileServer.Start at h
  revert h
  generalize u.NewCredentials w now cc t = r at hf ⊢
  obtain ⟨hfa, hfc, hfu, hfp⟩ := hf
  intro h
  dsimp only at h
  cases env with
  | pipeError e =>
    dsimp only at h
    cases h
    refine ⟨by simp [hfu, hkey], ?_, ?_, ?_⟩
    · intro ha; simp [hfa, hal] at ha
    · intro username fs hc; rw [hfp]; exact hc
    · simp [hfp]
  | startError e =>
    dsimp only at h
    cases h
    refine ⟨by simp [hfu, hkey], ?_, ?_, ?_⟩
    · intro ha; simp [hfa, hal] at ha
    · intro username fs hc; rw [hfp]; exact hc
    · simp [hfp]
  | spawned early =>
    dsimp only at h
    split at h
    · cases h
    · rename_i u3 started hloop
      have hl := readerLoop_facts hloop
      dsimp only at hl
      split at h
      · cases h
        refine ⟨by rw [hl.2]; simp [hfu, hkey], ?_, ?_, ?_⟩
        · intro _
          refine ⟨_, r.2.procs.length,
            { owner := r.1.user.Username, running := true, interrupts := 0 },
            hl.1, rfl, ?_, ?_, rfl⟩
          · simp
          · simp [hfu, hkey]
        · intro username fs hc
          rw [← hfp] at hc
          exact childRuns_append _ hc
        · simp [hfp]
      · split at h
        · cases h
        · rename_i u4 w2 hsd
          cases h
          obtain ⟨h1, h2, h3, pid, h4⟩ := shutdown_facts hsd
          refine ⟨by rw [h3, hl.2]; simp [hfu, hkey], ?_, ?_, ?_⟩
          · intro ha; rw [h1] at ha; cases ha
          · intro username fs hc
            rw [h4]
            apply childRuns_interrupt
            rw [← hfp] at hc
            exact childRuns_append _ hc
          · rw [h4, length_updateProc]; simp [hfp]

theorem registryInv_store {gw : Gateway} {key : Str} {fs1 : UserFileServer} {w1 : World}
    (hinv : RegistryInv gw)
    (hw : ∀ username fs, username ≠ key → childRuns gw.world.procs username fs →
      childRuns w1.procs username fs)
    (h1 : fs1.user.Username = key) (h2 : fs1.Alive = true → childRuns w1.procs key fs1) :
    RegistryInv (gw.store key fs1 w1) := by
  intro username fs hfs
  unfold Gateway.store at hfs ⊢
  dsimp only at hfs ⊢
  by_cases e : username = key
  · subst e
    simp only [if_true, Option.some.injEq] at hfs
    subst hfs
    exact ⟨h1, h2⟩
  · simp only [e, if_false] at hfs
    exact ⟨(hinv username fs hfs).1, fun ha => hw username fs e ((hinv username fs hfs).2 ha)⟩

theorem ensure_facts {cfg : serverConfig} {gw gw1 : Gateway} {userInfo : User} {now t : Int}
    {cc : Str} {spawn : Spawn} {err : Option Str} {fs1 : UserFileServer}
    (hinv : RegistryInv gw)
    (h : ensure cfg gw userInfo now cc t spawn = some (err, fs1, gw1)) :
    RegistryInv gw1 ∧ gw1.world.procs.length ≤ gw.world.procs.length + 1
      ∧ (∀ fs, gw.userFileServers userInfo.Username = some fs → fs.Alive = true →
          gw1.world.procs = gw.world.procs) := by
  unfold ensure at h
  revert h
  have hfs0 : ∀ fs0 : UserFileServer,
      fs0 = (match gw.userFileServers userInfo.Username with
        | some fs => fs
        | none => NewUserFileServer userInfo cfg.UserFileServer cfg.MaxLifetime cfg.Routes) →
      fs0.user.Username = userInfo.Username
        ∧ (fs0.Alive = true → childRuns gw.world.procs userInfo.Username fs0)
        ∧ (∀ fs, gw.userFileServers userInfo.Username = some fs → fs = fs0) := by
    intro fs0 e
    cases hl : gw.userFileServers userInfo.Username with
    | none =>
      rw [hl] at e
      subst e
      exact ⟨rfl, fun ha => by simp [NewUserFileServer] at ha, fun fs hfs => by cases hfs⟩
    | some fs =>
      rw [hl] at e
      subst e
      exact ⟨(hinv _ _ hl).1, (hinv _ _ hl).2, fun fs hfs => by cases hfs; rfl⟩
  generalize hg : (match gw.userFileServers userInfo.Username with
    | some fs => fs
    | none => NewUserFileServer userInfo cfg.UserFileServer cfg.MaxLifetime cfg.Routes) = fs0
  obtain ⟨hu, hc, hsame⟩ := hfs0 fs0 hg.symm
  intro h
  dsimp only at h
  by_cases ha : fs0.Alive = true
  · simp only [ha, if_true, Option.some.injEq, Prod.mk.injEq] at h
    obtain ⟨_, _, hgw⟩ := h
    subst hgw
    have hf := newCredentials_facts fs0 gw.world now cc t
    refine ⟨?_, ?_, ?_⟩
    · apply registryInv_store hinv
      · intro username fs _ hr; rw [hf.2.2.2]; exact hr
      · rw [hf.2.2.1]; exact hu
      · intro _; rw [hf.2.2.2]; exact childRuns_congr hf.2.1 (hc ha)
    · simp [Gateway.store, hf.2.2.2]
    · intro _ _ _; simp [Gateway.store, hf.2.2.2]
  · have ha2 : fs0.Alive = false := by simpa using ha
    simp only [ha2, Bool.false_eq_true, if_false] at h
    split at h
    · cases h
    · rename_i err1 fs2 w1 hstart
      simp only [Option.some.injEq, Prod.mk.injEq] at h
      obtain ⟨_, _, hgw⟩ := h
      subst hgw
      obtain ⟨s1, s2, s3, s4⟩ := start_facts hu ha2 hstart
      refine ⟨?_, ?_, ?_⟩
      · exact registryInv_store hinv (fun username fs _ hr => s3 username fs hr) s1 s2
      · simpa [Gateway.store] using s4
      · intro fs hfs hal
        rw [hsame fs hfs] at hal
        rw [ha2] at hal
        cases hal

theorem timerFires_inv {gw gw1 : Gateway} {username : Str} (hinv : RegistryInv gw)
    (h : timerFires gw username = some gw1) : RegistryInv gw1 := by
  unfold timerFires at h
  cases hl : gw.userFileServers username with
  | none => rw [hl] at h; cases h; exact hinv
  | some fs =>
    rw [hl] at h
    dsimp only at h
    cases ht : fs.timer with
    | none => rw [ht] at h; cases h; exact hinv
    | some tm =>
      rw [ht] at h
      dsimp only at h
      by_cases harm : tm.armed = true
      · simp only [harm, if_true] at h
        split at h
        · cases h
        · rename_i fs1 w1 hsd
          cases h
          obtain ⟨h1, _, h3, pid, h4⟩ := shutdown_facts hsd
          apply registryInv_store hinv
          · intro u fs2 _ hr; rw [h4]; exact childRuns_interrupt _ hr
          · rw [h3]; exact (hinv _ _ hl).1
          · intro ha; rw [h1] at ha; cases ha
      · simp only [harm, if_false] at h
        cases h; exact hinv

theorem childExits_inv {gw : Gateway} (pid : Nat) (hinv : RegistryInv gw) :
    RegistryInv (childExits gw pid) := by
  unfold childExits
  cases hp : gw.world.procs[pid]? with
  | none => exact hinv
  | some p =>
    dsimp only
    by_cases hr : p.running = true
    · simp only [hr, if_true]
      cases hl : gw.userFileServers p.owner with
      | none =>
        dsimp only
        intro username fs hfs
        have hne : p.owner ≠ username := by
          intro e; rw [e] at hl; rw [hl] at hfs; cases hfs
        exact ⟨(hinv _ _ hfs).1, fun ha =>
          childRuns_exit_other pid p hp hne ((hinv _ _ hfs).2 ha)⟩
      | some fs =>
        dsimp only
        apply registryInv_store hinv
        · intro username fs2 hne hc
          exact childRuns_exit_other pid p hp (fun e => hne e.symm) hc
        · exact (hinv _ _ hl).1
        · intro ha; cases ha
    · simp only [hr, if_false]
      exact hinv

theorem step_inv {cfg : serverConfig} {gw gw1 : Gateway} {e : Event} (hinv : RegistryInv gw)
    (h : step cfg gw e = some gw1) : RegistryInv gw1 := by
  cases e with
  | request userInfo now cc t spawn =>
    simp only [step, Option.map_eq_some'] at h
    obtain ⟨⟨err, fs1, gw2⟩, he, hg⟩ := h
    dsimp only at hg
    subst hg
    exact (ensure_facts hinv he).1
  | timerFires username => exact timerFires_inv hinv h
  | childExits pid =>
    simp only [step, Option.some.injEq] at h
    subst h
    exact childExits_inv pid hinv

theorem run_inv {cfg : serverConfig} {evs : List Event} {gw gw1 : Gateway}
    (hinv : RegistryInv gw) (h : run cfg gw evs = some gw1) : RegistryInv gw1 := by
  induction evs generalizing gw with
  | nil => simp only [run, Option.some.injEq] at h; subst h; exact hinv
  | cons e es ih =>
    rw [run] at h
    cases hs : step cfg gw e with
    | none => rw [hs] at h; cases h
    | some gw2 =>
      rw [hs] at h
      exact ih (step_inv hinv hs) h

/-- In every state the registry reaches from startup through requests, timer
expiries and child exits, a record that is alive refers to a child spawned
for its user that is still running; a request of that user then spawns no
child, and any request spawns at most one. -/
theorem alive_record_child_running (cfg : serverConfig) (evs : List Event) (gw : Gateway)
    (username : Str) (fs : UserFileServer)
    (hrun : run cfg Gateway.init evs = some gw)
    (hfs : gw.userFileServers username = some fs) (halive : fs.Alive = true) :
    childRuns gw.world.procs username fs
      ∧ ∀ (userInfo : User) (now : Int) (krb5ccname : Str) (credLifetime : Int)
          (spawn : Spawn) (gw1 : Gateway),
          step cfg gw (.request userInfo now krb5ccname credLifetime spawn) = some gw1 →
          gw1.world.procs.length ≤ gw.world.procs.length + 1
            ∧ (userInfo.Username = username → gw1.world.procs = gw.world.procs) := by
  have hinit : RegistryInv Gateway.init := by
    intro u f hf
    simp [Gateway.init] at hf
  have hinv := run_inv hinit hrun
  refine ⟨(hinv username fs hfs).2 halive, ?_⟩
  intro userInfo now cc t spawn gw1 hstep
  simp only [step, Option.map_eq_some'] at hstep
  obtain ⟨⟨err, fs1, gw2⟩, he, hg⟩ := hstep
  dsimp only at hg
  subst hg
  have hf := ensure_facts hinv he
  refine ⟨hf.2.1, ?_⟩
  intro hu
  exact hf.2.2 fs (by rw [hu]; exact hfs) halive

/-- Witness of `alive_record_child_running`: after the restart of the file
server of `alice` her record is alive and its child, the second one, runs. -/
theorem alive_record_child_running_witness :
    run exampleConfig Gateway.init restartEvents = some afterRestart
      ∧ afterRestart.userFileServers "alice".toList = some aliceRecord
      ∧ aliceRecord.Alive = true
      ∧ childRuns afterRestart.world.procs "alice".toList aliceRecord :=
  ⟨rfl, rfl, by decide,
    (alive_record_child_running exampleConfig restartEvents afterRestart "alice".toList
      aliceRecord rfl rfl (by decide)).1⟩

theorem readerLoop_started {lines : List Str} {st st1 : UserFileServer × Bool}
    (h : readerLoop lines st = some st1) (hst : st.2 = true → st.1.Alive = true) :
    st1.2 = true → st1.1.Alive = true := by
  induction lines generalizing st with
  | nil => simp [readerLoop] at h; subst h; exact hst
  | cons line rest ih =>
    rw [readerLoop] at h
    cases hs : readerStep st line with
    | none => rw [hs] at h; cases h
    | some st2 =>
      rw [hs] at h
      apply ih h
      unfold readerStep at hs
      split at hs
      · split at hs
        · split at hs
          · cases hs
          · cases hs; intro _; rfl
        · cases hs; exact hst
      · cases hs; exact hst

theorem shutdown_signal {u u1 : UserFileServer} {w w1 : World}
    (h : u.Shutdown w = some (u1, w1)) :
    ∃ cmd pid, u.cmd = some cmd ∧ cmd.Process = some pid
      ∧ w1.procs = updateProc Proc.interrupt pid w.procs ∧ u1.Alive = false := by
  unfold UserFileServer.Shutdown at h
  have hf := removeCredentials_facts { u with Alive := false } w
  revert h
  generalize ({ u with Alive := false } : UserFileServer).RemoveCredentials w = r at hf ⊢
  intro h
  dsimp only at h
  cases hc : r.1.cmd with
  | none => rw [hc] at h; cases h
  | some cmd =>
    rw [hc] at h
    dsimp only at h
    cases hp : cmd.Process with
    | none => rw [hp] at h; cases h
    | some pid =>
      rw [hp] at h
      cases h
      exact ⟨cmd, pid, by rw [← hf.2.1]; exact hc, hp,
        by simp [World.interrupt, hf.2.2.2.2], hf.1⟩

theorem start_cases {u u1 : UserFileServer} {w w1 : World} {now t : Int} {cc : Str}
    {env : Spawn} {err : Option Str} {key : Str}
    (hkey : u.user.Username = key) (hal : u.Alive = false)
    (h : u.Start w now cc t env = some (err, u1, w1)) :
    (w1.procs = w.procs ∧ u1.Alive = false)
      ∨ (w1.procs = w.procs ++ [{ owner := key, running := true, interrupts := 0 }]
          ∧ u1.Alive = true
          ∧ ∃ cmd, u1.cmd = some cmd ∧ cmd.Process = some w.procs.length)
      ∨ (w1.procs = updateProc Proc.interrupt w.procs.length
            (w.procs ++ [{ owner := key, running := true, interrupts := 0 }])
          ∧ u1.Alive = false) := by
  have hf := newCredentials_facts u w now cc t
  unfold UserFileServer.Start at h
  revert h
  generalize u.NewCredentials w now cc t = r at hf ⊢
  obtain ⟨hfa, hfc, hfu, hfp⟩ := hf
  intro h
  dsimp only at h
  cases env with
  | pipeError e =>
    dsimp only at h
    cases h
    exact Or.inl ⟨hfp, by simp [hfa, hal]⟩
  | startError e =>
    dsimp only at h
    cases h
    exact Or.inl ⟨hfp, by simp [hfa, hal]⟩
  | spawned early =>
    dsimp only at h
    split at h
    · cases h
    · rename_i u3 started hloop
      have hl := readerLoop_facts hloop
      have hs := readerLoop_started hloop (by simp)
      dsimp only at hl hs
      split at h
      · rename_i hstarted
        cases h
        refine Or.inr (Or.inl ⟨?_, hs hstarted, _, hl.1, ?_⟩)
        · simp [hfp, hfu, hkey]
        · simp [hfp]
      · split at h
        · cases h
        · rename_i u4 w2 hsd
          cases h
          obtain ⟨cmd, pid, h1, h2, h3, h4⟩ := shutdown_signal hsd
          rw [hl.1] at h1
          simp only [Option.some.injEq] at h1
          subst h1
          simp only [Option.some.injEq] at h2
          subst h2
          refine Or.inr (Or.inr ⟨?_, h4⟩)
          rw [h3]
          simp [hfp, hfu, hkey]

theorem live_of_interrupt {l : List Proc} {n pid : Nat} {p : Proc}
    (h : (updateProc Proc.interrupt n l)[pid]? = some p) (hr : p.running = true)
    (hi : p.interrupts = 0) : pid ≠ n ∧ l[pid]? = some p := by
  rw [getElem?_updateProc] at h
  by_cases e : pid = n
  · rw [if_pos e] at h
    cases hq : l[pid]? with
    | none => rw [hq] at h; cases h
    | some q =>
      rw [hq] at h
      simp only [Option.map_some', Option.some.injEq] at h
      unfold Proc.interrupt at h
      split at h
      · subst h; simp at hi
      · rename_i hnr
        subst h
        exact absurd hr hnr
  · rw [if_neg e] at h
    exact ⟨e, h⟩

theorem live_of_exit {l : List Proc} {n pid : Nat} {p : Proc}
    (h : (updateProc (fun r => { r with running := false }) n l)[pid]? = some p)
    (hr : p.running = true) : pid ≠ n ∧ l[pid]? = some p := by
  rw [getElem?_updateProc] at h
  by_cases e : pid = n
  · rw [if_pos e] at h
    cases hq : l[pid]? with
    | none => rw [hq] at h; cases h
    | some q =>
      rw [hq] at h
      simp only [Option.map_some', Option.some.injEq] at h
      subst h
      simp at hr
  · rw [if_neg e] at h
    exact ⟨e, h⟩

theorem getElem?_concat_cases {l : List Proc} {q p : Proc} {pid : Nat}
    (h : (l ++ [q])[pid]? = some p) :
    (pid < l.length ∧ l[pid]? = some p) ∨ (pid = l.length ∧ p = q) := by
  rcases Nat.lt_trichotomy pid l.length with hlt | heq | hgt
  · left
    rw [List.getElem?_append_left hlt] at h
    exact ⟨hlt, h⟩
  · right
    subst heq
    simp at h
    exact ⟨rfl, h.symm⟩
  · have : (l ++ [q]).length ≤ pid := by simp; omega
    rw [List.getElem?_eq_none this] at h
    cases h

theorem unsignalledInv_store {gw : Gateway} {key : Str} {fs1 : UserFileServer} {w1 : World}
    (ha : ∀ pid p, w1.procs[pid]? = some p → p.running = true → p.interrupts = 0 →
      p.owner ≠ key →
      ∃ fs cmd, gw.userFileServers p.owner = some fs ∧ fs.Alive = true
        ∧ fs.cmd = some cmd ∧ cmd.Process = some pid)
    (hb : ∀ pid p, w1.procs[pid]? = some p → p.running = true → p.interrupts = 0 →
      p.owner = key →
      fs1.Alive = true ∧ ∃ cmd, fs1.cmd = some cmd ∧ cmd.Process = some pid) :
    UnsignalledInv (gw.store key fs1 w1) := by
  intro pid p hp hr hi
  unfold Gateway.store at hp ⊢
  dsimp only at hp ⊢
  by_cases e : p.owner = key
  · obtain ⟨h1, cmd, h2, h3⟩ := hb pid p hp hr hi e
    exact ⟨fs1, cmd, by simp [e], h1, h2, h3⟩
  · obtain ⟨fs, cmd, h1, h2, h3, h4⟩ := ha pid p hp hr hi e
    exact ⟨fs, cmd, by simp [e, h1], h2, h3, h4⟩

theorem ensure_unsignalled {cfg : serverConfig} {gw gw1 : Gateway} {userInfo : User}
    {now t : Int} {cc : Str} {spawn : Spawn} {err : Option Str} {fs1 : UserFileServer}
    (hinv : RegistryInv gw) (hu : UnsignalledInv gw)
    (h : ensure cfg gw userInfo now cc t spawn = some (err, fs1, gw1)) :
    UnsignalledInv gw1 := by
  unfold ensure at h
  revert h
  have hfs0 : ∀ fs0 : UserFileServer,
      fs0 = (match gw.userFileServers userInfo.Username with
        | some fs => fs
        | none => NewUserFileServer userInfo cfg.UserFileServer cfg.MaxLifetime cfg.Routes) →
      fs0.user.Username = userInfo.Username
        ∧ (∀ fs, gw.userFileServers userInfo.Username = some fs → fs = fs0) := by
    intro fs0 e
    cases hl : gw.userFileServers userInfo.Username with
    | none =>
      rw [hl] at e
      subst e
      exact ⟨rfl, fun fs hfs => by cases hfs⟩
    | some fs =>
      rw [hl] at e
      subst e
      exact ⟨(hinv _ _ hl).1, fun fs hfs => by cases hfs; rfl⟩
  generalize hg : (match gw.userFileServers userInfo.Username with
    | some fs => fs
    | none => NewUserFileServer userInfo cfg.UserFileServer cfg.MaxLifetime cfg.Routes) = fs0
  obtain ⟨hkey, hsame⟩ := hfs0 fs0 hg.symm
  intro h
  dsimp only at h
  by_cases ha : fs0.Alive = true
  · simp only [ha, if_true, Option.some.injEq, Prod.mk.injEq] at h
    obtain ⟨_, _, hgw⟩ := h
    subst hgw
    have hf := newCredentials_facts fs0 gw.world now cc t
    apply unsignalledInv_store
    · intro pid p hp hr hi _
      rw [hf.2.2.2] at hp
      exact hu pid p hp hr hi
    · intro pid p hp hr hi ho
      rw [hf.2.2.2] at hp
      obtain ⟨fs, cmd, h1, h2, h3, h4⟩ := hu pid p hp hr hi
      rw [ho] at h1
      have := hsame fs h1
      subst this
      exact ⟨by rw [hf.1]; exact h2, cmd, by rw [hf.2.1]; exact h3, h4⟩
  · have ha2 : fs0.Alive = false := by simpa using ha
    have hnone : ∀ (pid : Nat) (p : Proc), gw.world.procs[pid]? = some p → p.running = true →
        p.interrupts = 0 → p.owner ≠ userInfo.Username := by
      intro pid p hp hr hi ho
      obtain ⟨fs, cmd, h1, h2, _, _⟩ := hu pid p hp hr hi
      rw [ho] at h1
      have := hsame fs h1
      subst this
      rw [ha2] at h2
      cases h2
    simp only [ha2, Bool.false_eq_true, if_false] at h
    split at h
    · cases h
    · rename_i err1 fs2 w1 hstart
      simp only [Option.some.injEq, Prod.mk.injEq] at h
      obtain ⟨_, _, hgw⟩ := h
      subst hgw
      rcases start_cases hkey ha2 hstart with ⟨hp1, _⟩ | ⟨hp1, hal1, cmd1, hc1, hc2⟩ | ⟨hp1, _⟩
      · apply unsignalledInv_store
        · intro pid p hp hr hi _
          rw [hp1] at hp
          exact hu pid p hp hr hi
        · intro pid p hp hr hi ho
          rw [hp1] at hp
          exact absurd ho (hnone pid p hp hr hi)
      · apply unsignalledInv_store
        · intro pid p hp hr hi ho
          rw [hp1] at hp
          rcases getElem?_concat_cases hp with ⟨_, hp2⟩ | ⟨_, hp2⟩
          · exact hu pid p hp2 hr hi
          · subst hp2
            exact absurd rfl ho
        · intro pid p hp hr hi ho
          rw [hp1] at hp
          rcases getElem?_concat_cases hp with ⟨_, hp2⟩ | ⟨hpid, _⟩
          · exact absurd ho (hnone pid p hp2 hr hi)
          · subst hpid
            exact ⟨hal1, cmd1, hc1, hc2⟩
      · have hold : ∀ (pid : Nat) (p : Proc), w1.procs[pid]? = some p → p.running = true →
            p.interrupts = 0 → gw.world.procs[pid]? = some p := by
          intro pid p hp hr hi
          rw [hp1] at hp
          obtain ⟨hne, hp2⟩ := live_of_interrupt hp hr hi
          rcases getElem?_concat_cases hp2 with ⟨_, hp3⟩ | ⟨hpid, _⟩
          · exact hp3
          · exact absurd hpid hne
        apply unsignalledInv_store
        · intro pid p hp hr hi _
          exact hu pid p (hold pid p hp hr hi) hr hi
        · intro pid p hp hr hi ho
          exact absurd ho (hnone pid p (hold pid p hp hr hi) hr hi)

theorem timerFires_unsignalled {gw gw1 : Gateway} {username : Str}
    (hu : UnsignalledInv gw) (h : timerFires gw username = some gw1) :
    UnsignalledInv gw1 := by
  unfold timerFires at h
  cases hl : gw.userFileServers username with
  | none => rw [hl] at h; cases h; exact hu
  | some fs =>
    rw [hl] at h
    dsimp only at h
    cases ht : fs.timer with
    | none => rw [ht] at h; cases h; exact hu
    | some tm =>
      rw [ht] at h
      dsimp only at h
      by_cases harm : tm.armed = true
      · simp only [harm, if_true] at h
        split at h
        · cases h
        · rename_i fs1 w1 hsd
          cases h
          obtain ⟨cmd0, pid0, h1, h2, h3, h4⟩ := shutdown_signal hsd
          dsimp only at h1
          apply unsignalledInv_store
          · intro pid p hp hr hi _
            rw [h3] at hp
            exact hu pid p (live_of_interrupt hp hr hi).2 hr hi
          · intro pid p hp hr hi ho
            rw [h3] at hp
            obtain ⟨hne, hp2⟩ := live_of_interrupt hp hr hi
            obtain ⟨fs2, cmd2, g1, _, g3, g4⟩ := hu pid p hp2 hr hi
            rw [ho, hl] at g1
            cases g1
            rw [h1] at g3
            cases g3
            rw [h2] at g4
            cases g4
            exact absurd rfl hne
      · simp only [harm, if_false] at h
        cases h; exact hu

theorem childExits_unsignalled {gw : Gateway} (pid0 : Nat) (hu : UnsignalledInv gw)
    (hstale : staleExit gw pid0 = false) : UnsignalledInv (childExits gw pid0) := by
  unfold childExits
  unfold staleExit at hstale
  cases hp0 : gw.world.procs[pid0]? with
  | none => exact hu
  | some p0 =>
    rw [hp0] at hstale
    dsimp only at hstale ⊢
    by_cases hr0 : p0.running = true
    · simp only [hr0, if_true]
      simp only [hr0, Bool.true_and] at hstale
      cases hl : gw.userFileServers p0.owner with
      | none =>
        dsimp only
        intro pid p hp hr hi
        exact hu pid p (live_of_exit hp hr).2 hr hi
      | some fs =>
        rw [hl] at hstale
        dsimp only at hstale ⊢
        apply unsignalledInv_store
        · intro pid p hp hr hi _
          exact hu pid p (live_of_exit hp hr).2 hr hi
        · intro pid p hp hr hi ho
          obtain ⟨hne, hp2⟩ := live_of_exit hp hr
          obtain ⟨fs2, cmd2, g1, g2, g3, g4⟩ := hu pid p hp2 hr hi
          rw [ho, hl] at g1
          cases g1
          rw [g2, g3] at hstale
          simp [g4] at hstale
          exact absurd hstale hne
    · simp only [hr0, if_false]
      exact hu

theorem run_unsignalled {cfg : serverConfig} {evs : List Event} {gw gw1 : Gateway}
    (hinv : RegistryInv gw) (hu : UnsignalledInv gw) (h : run cfg gw evs = some gw1)
    (hscope : noStaleExit cfg gw evs = true) : UnsignalledInv gw1 := by
  induction evs generalizing gw with
  | nil => simp only [run, Option.some.injEq] at h; subst h; exact hu
  | cons e es ih =>
    rw [run] at h
    cases hs : step cfg gw e with
    | none => rw [hs] at h; cases h
    | some gw2 =>
      rw [hs] at h
      have hinv2 := step_inv hinv hs
      cases e with
      | request userInfo now cc t spawn =>
        simp only [noStaleExit, hs, Bool.true_and] at hscope
        refine ih hinv2 ?_ h hscope
        simp only [step, Option.map_eq_some'] at hs
        obtain ⟨⟨err, fs1, gw3⟩, he, hg⟩ := hs
        dsimp only at hg
        subst hg
        exact ensure_unsignalled hinv hu he
      | timerFires username =>
        simp only [noStaleExit, hs, Bool.true_and] at hscope
        exact ih hinv2 (timerFires_unsignalled hu hs) h hscope
      | childExits pid =>
        simp only [noStaleExit, hs, Bool.and_eq_true, Bool.not_eq_true'] at hscope
        refine ih hinv2 ?_ h hscope.2
        simp only [step, Option.some.injEq] at hs
        subst hs
        exact childExits_unsignalled pid hu hscope.1

theorem filter_length_le_one {α : Type} (P : α → Bool) (l : List α)
    (h : ∀ (i j : Nat) (a b : α), l[i]? = some a → l[j]? = some b → P a = true →
      P b = true → i = j) :
    (l.filter P).length ≤ 1 := by
  induction l with
  | nil => simp
  | cons x xs ih =>
    have hxs : ∀ (i j : Nat) (a b : α), xs[i]? = some a → xs[j]? = some b → P a = true →
        P b = true → i = j := by
      intro i j a b ha hb pa pb
      have := h (i + 1) (j + 1) a b (by simpa using ha) (by simpa using hb) pa pb
      omega
    by_cases px : P x = true
    · have hnil : xs.filter P = [] := by
        apply List.filter_eq_nil_iff.2
        intro y hy py
        obtain ⟨j, hj⟩ := List.getElem?_of_mem hy
        have := h 0 (j + 1) x y (by simp) (by simpa using hj) px py
        omega
      simp [List.filter_cons, px, hnil]
    · simp only [List.filter_cons, px]
      exact ih hxs

/-- C5 (amended): in every state the registry reaches from startup through
requests, timer expiries and child exits, none of them the exit of a child
whose user's record is alive on a child started later, at most one child
spawned for a username is still running without having been sent the
interrupt signal of `Shutdown`. -/
theorem at_most_one_unsignalled_child (cfg : serverConfig) (evs : List Event)
    (gw : Gateway) (username : Str)
    (hrun : run cfg Gateway.init evs = some gw)
    (hscope : noStaleExit cfg Gateway.init evs = true) :
    unsignalledRunning gw username ≤ 1 := by
  have hinit : RegistryInv Gateway.init := by
    intro u f hf
    simp [Gateway.init] at hf
  have huinit : UnsignalledInv Gateway.init := by
    intro pid p hp
    simp [Gateway.init] at hp
  have hu := run_unsignalled hinit huinit hrun hscope
  unfold unsignalledRunning
  apply filter_length_le_one
  intro i j a b ha hb pa pb
  simp only [decide_eq_true_eq] at pa pb
  obtain ⟨fa, ca, a1, _, a3, a4⟩ := hu i a ha pa.2.1 pa.2.2
  obtain ⟨fb, cb, b1, _, b3, b4⟩ := hu j b hb pb.2.1 pb.2.2
  rw [pa.1] at a1
  rw [pb.1, a1] at b1
  cases b1
  rw [a3] at b3
  cases b3
  rw [a4] at b4
  cases b4
  rfl

/-- Witness of `at_most_one_unsignalled_child`: after two restarts of the
file server of `alice`, the second following the exit of her second child,
one of her two running children was never signalled. -/
theorem at_most_one_unsignalled_child_witness :
    (run exampleConfig Gateway.init restartTwiceEvents).map
        (fun gw => (runningChildren gw "alice".toList, unsignalledRunning gw "alice".toList))
        = some (2, 1)
      ∧ noStaleExit exampleConfig Gateway.init restartTwiceEvents = true
      ∧ unsignalledRunning
          ((run exampleConfig Gateway.init restartTwiceEvents).getD Gateway.init)
          "alice".toList ≤ 1 :=
  ⟨by decide, by decide,
    at_most_one_unsignalled_child exampleConfig restartTwiceEvents
      ((run exampleConfig Gateway.init restartTwiceEvents).getD Gateway.init)
      "alice".toList rfl (by decide)⟩

/-- Outside that scope: when the first child of `alice`, signalled and still
running beside the second, exits, its reader clears `Alive` on her record,
and her next request starts a third child beside the second, which was never
signalled. -/
theorem stale_exit_orphans_child :
    noStaleExit exampleConfig Gateway.init staleExitEvents = false
      ∧ (run exampleConfig Gateway.init staleExitEvents).map
          (fun gw => (unsignalledRunning gw "alice".toList, gw.world.procs))
        = some (2, [{ owner := "alice".toList, running := false, interrupts := 1 },
                    { owner := "alice".toList, running := true, interrupts := 0 },
                    { owner := "alice".toList, running := true, interrupts := 0 }]) := by
  constructor <;> decide

/-! ## End of life: theorems -/

/-- C11 (evaluation at the failing input): with no maximum lifetime, a first
request of `alice` at 0 s with a ticket valid for 3600 s starts her file
server and records `eol = 3600`; her second request at 60 s with a ticket
valid for 300 s finds the record alive, spawns no child, and `NewCredentials`
records `eol = 360`, earlier than before, although its comment says that it
increases the lifetime of the server. -/
theorem eol_decreases_with_shorter_ticket :
    aliceAfter (refreshEvents.take 1) = some (true, 3600, 1)
      ∧ aliceAfter refreshEvents = some (true, 360, 1)
      ∧ ¬ ((3600 : Int) ≤ 360) := by
  refine ⟨?_, ?_, ?_⟩ <;> decide

/-! ## Lexical containment: theorems -/

theorem splitAux_append (sep : Char) (a b cur : Str) :
    splitAux sep (a ++ sep :: b) cur = splitAux sep a cur ++ splitAux sep b [] := by
  induction a generalizing cur with
  | nil => simp [splitAux]
  | cons c cs ih =>
    by_cases hc : c = sep
    · simp [splitAux, hc, ih]
    · simp [splitAux, hc, ih]

theorem splitOn_append (sep : Char) (a b : Str) :
    splitOn sep (a ++ sep :: b) = splitOn sep a ++ splitOn sep b := by
  simp [splitOn, splitAux_append]

theorem splitAux_no_sep (sep : Char) (s cur : Str) (h : sep ∉ s) :
    splitAux sep s cur = [cur.reverse ++ s] := by
  induction s generalizing cur with
  | nil => simp [splitAux]
  | cons c cs ih =>
    have hc : c ≠ sep := fun e => h (by simp [e])
    have hcs : sep ∉ cs := fun e => h (by simp [e])
    simp [splitAux, hc, ih (c :: cur) hcs]

theorem splitAux_mem_no_sep (sep : Char) (s cur : Str) (hcur : sep ∉ cur) :
    ∀ e ∈ splitAux sep s cur, sep ∉ e := by
  induction s generalizing cur with
  | nil => simp [splitAux, hcur]
  | cons c cs ih =>
    by_cases hc : c = sep
    · intro e he
      simp only [splitAux, hc, if_true, List.mem_cons] at he
      rcases he with he | he
      · subst he; simpa using hcur
      · exact ih [] (by simp) e he
    · intro e he
      simp only [splitAux, hc, if_false] at he
      exact ih (c :: cur) (by simp [hcur, Ne.symm hc]) e he

theorem splitOn_joinSlash (els : List Str) (h : ∀ e ∈ els, properElement e) :
    splitOn '/' (joinSlash els) = if els = [] then [[]] else els := by
  induction els with
  | nil => simp [splitOn, splitAux, joinSlash]
  | cons e rest ih =>
    have he : '/' ∉ e := (h e (by simp)).2.2.2
    cases rest with
    | nil => simp [joinSlash, splitOn, splitAux_no_sep _ _ _ he]
    | cons e2 rest2 =>
      have ih2 := ih (fun x hx => h x (by simp [hx]))
      simp only [joinSlash, splitOn_append, ih2]
      simp [splitOn, splitAux_no_sep _ _ _ he]

theorem cleanStep_rooted_proper (st : List Str × Nat) (e : Str) (he : '/' ∉ e)
    (hst : ∀ x ∈ st.1, properElement x) :
    ∀ x ∈ (cleanStep true st e).1, properElement x := by
  unfold cleanStep
  split
  · exact hst
  · rename_i h1
    split
    · split
      · intro x hx
        exact hst x (List.mem_of_mem_dropLast hx)
      · simpa using hst
    · rename_i h2
      intro x hx
      simp only [List.mem_append, List.mem_singleton] at hx
      rcases hx with hx | hx
      · exact hst x hx
      · subst hx
        exact ⟨fun e0 => h1 (Or.inl e0), fun e0 => h1 (Or.inr e0), h2, he⟩

theorem foldl_cleanStep_rooted_proper (l : List Str) (st : List Str × Nat)
    (hl : ∀ e ∈ l, '/' ∉ e) (hst : ∀ x ∈ st.1, properElement x) :
    ∀ x ∈ (l.foldl (cleanStep true) st).1, properElement x := by
  induction l generalizing st with
  | nil => simpa using hst
  | cons e rest ih =>
    simp only [List.foldl_cons]
    exact ih _ (fun x hx => hl x (by simp [hx]))
      (cleanStep_rooted_proper st e (hl e (by simp)) hst)

theorem clean_rooted (s : Str) :
    ∃ els, Clean ('/' :: s) = '/' :: joinSlash els ∧ ∀ e ∈ els, properElement e := by
  refine ⟨((splitOn '/' ('/' :: s)).foldl (cleanStep true) ([], 0)).1, ?_, ?_⟩
  · simp [Clean]
  · apply foldl_cleanStep_rooted_proper
    · exact splitAux_mem_no_sep '/' _ [] (by simp)
    · simp

theorem foldl_cleanStep_proper (els acc : List Str) (h : ∀ e ∈ els, properElement e) :
    els.foldl (cleanStep true) (acc, 0) = (acc ++ els, 0) := by
  induction els generalizing acc with
  | nil => simp
  | cons e rest ih =>
    obtain ⟨h1, h2, h3, _⟩ := h e (by simp)
    have hs : cleanStep true (acc, 0) e = (acc ++ [e], 0) := by
      simp [cleanStep, h1, h2, h3]
    simp only [List.foldl_cons, hs]
    rw [ih _ (fun x hx => h x (by simp [hx]))]
    simp

theorem foldl_cleanStep_split (els acc : List Str) (h : ∀ e ∈ els, properElement e) :
    (if els = [] then [[]] else els).foldl (cleanStep true) (acc, 0) = (acc ++ els, 0) := by
  by_cases he : els = []
  · subst he; simp [cleanStep]
  · simp only [he, if_false]
    exact foldl_cleanStep_proper els acc h

theorem clean_join_rooted (rs es : List Str) (hrs : ∀ e ∈ rs, properElement e)
    (hes : ∀ e ∈ es, properElement e) :
    Clean ('/' :: (joinSlash rs ++ '/' :: '/' :: joinSlash es))
      = '/' :: joinSlash (rs ++ es) := by
  have hsplit : splitOn '/' ('/' :: (joinSlash rs ++ '/' :: '/' :: joinSlash es))
      = [[]] ++ ((if rs = [] then [[]] else rs) ++ ([[]] ++ (if es = [] then [[]] else es))) := by
    have e1 : '/' :: (joinSlash rs ++ '/' :: '/' :: joinSlash es)
        = [] ++ '/' :: (joinSlash rs ++ '/' :: ([] ++ '/' :: joinSlash es)) := by simp
    rw [e1, splitOn_append, splitOn_append, splitOn_append, splitOn_joinSlash rs hrs,
      splitOn_joinSlash es hes]
    simp [splitOn, splitAux]
  have hfold : (splitOn '/' ('/' :: (joinSlash rs ++ '/' :: '/' :: joinSlash es))).foldl
      (cleanStep true) ([], 0) = (rs ++ es, 0) := by
    rw [hsplit, List.foldl_append, List.foldl_append, List.foldl_append]
    have h0 : ∀ st : List Str × Nat, [([] : Str)].foldl (cleanStep true) st = st := by
      intro st; simp [cleanStep]
    simp only [h0]
    rw [foldl_cleanStep_split rs [] hrs]
    simpa using foldl_cleanStep_split es rs hes
  have hne : '/' :: (joinSlash rs ++ '/' :: '/' :: joinSlash es) ≠ [] := by simp
  unfold Clean
  rw [if_neg hne]
  simp [hfold]

theorem pathElements_rooted (rs : List Str) (hrs : ∀ e ∈ rs, properElement e) :
    pathElements ('/' :: joinSlash rs) = rs := by
  have e1 : '/' :: joinSlash rs = [] ++ '/' :: joinSlash rs := by simp
  unfold pathElements
  rw [e1, splitOn_append, splitOn_joinSlash rs hrs]
  have hf : rs.filter (fun x => decide (x ≠ [])) = rs := by
    apply List.filter_eq_self.2
    intro x hx
    simpa using (hrs x hx).1
  by_cases he : rs = []
  · subst he; simp [splitOn, splitAux]
  · simp only [he, if_false, List.filter_append, hf]
    simp [splitOn, splitAux]

theorem noDoubleSlash_append (e s : Str) (he : '/' ∉ e) :
    noDoubleSlash (e ++ s) = noDoubleSlash s := by
  induction e with
  | nil => simp
  | cons c cs ih =>
    have hc : c ≠ '/' := fun h => he (by simp [h])
    have hcs : '/' ∉ cs := fun h => he (by simp [h])
    simp [noDoubleSlash, hc, ih hcs]

theorem joinSlash_head (els : List Str) (h : ∀ e ∈ els, properElement e) :
    (joinSlash els).head? ≠ some '/' := by
  cases els with
  | nil => simp [joinSlash]
  | cons e rest =>
    obtain ⟨h1, _, _, h4⟩ := h e (by simp)
    cases e with
    | nil => exact absurd rfl h1
    | cons c cs =>
      have hc : c ≠ '/' := fun hh => h4 (by simp [hh])
      cases rest <;> simp [joinSlash, hc]

theorem noDoubleSlash_joinSlash (els : List Str) (h : ∀ e ∈ els, properElement e) :
    noDoubleSlash (joinSlash els) = true := by
  induction els with
  | nil => simp [joinSlash, noDoubleSlash]
  | cons e rest ih =>
    have he : '/' ∉ e := (h e (by simp)).2.2.2
    have hrest : ∀ x ∈ rest, properElement x := fun x hx => h x (by simp [hx])
    cases rest with
    | nil =>
      have := noDoubleSlash_append e [] he
      simpa [joinSlash, noDoubleSlash] using this
    | cons e2 rest2 =>
      simp only [joinSlash]
      rw [noDoubleSlash_append _ _ he]
      have hh := joinSlash_head (e2 :: rest2) hrest
      have ih2 := ih hrest
      simp only [joinSlash] at hh ih2 ⊢
      simp [noDoubleSlash, hh, ih2]

theorem joinSlash_append (rs es : List Str) (hr : rs ≠ []) (he : es ≠ []) :
    joinSlash (rs ++ es) = joinSlash rs ++ '/' :: joinSlash es := by
  induction rs with
  | nil => exact absurd rfl hr
  | cons r rest ih =>
    cases rest with
    | nil =>
      cases es with
      | nil => exact absurd rfl he
      | cons e es2 => simp [joinSlash]
    | cons r2 rest2 =>
      have := ih (by simp)
      simp only [List.cons_append] at this ⊢
      simp [joinSlash, this]

/-- C12: for every request name and every canonical absolute root `R` (a
clean path starting with a slash), the path `Open` builds before it resolves
symbolic links, `Join(R, Clean("/" + name))`, is a slash followed by proper
path elements (none empty, `.` or `..`) separated by single slashes, has no
two slashes in a row, and starts with the elements of `R`: it is `R` itself
or `R` extended by further elements.  The name `../../etc/passwd` under
`/root` gives `/root/etc/passwd`. -/
theorem lexical_containment (R name : Str) (habs : R.head? = some '/')
    (hclean : Clean R = R) :
    ∃ es : List Str,
      Join R (FromSlash (Clean ('/' :: name))) = '/' :: joinSlash (pathElements R ++ es)
        ∧ R = '/' :: joinSlash (pathElements R)
        ∧ (∀ e ∈ pathElements R ++ es, properElement e)
        ∧ noDoubleSlash (Join R (FromSlash (Clean ('/' :: name)))) = true
        ∧ ((es = [] ∧ Join R (FromSlash (Clean ('/' :: name))) = R)
            ∨ (es ≠ [] ∧ Join R (FromSlash (Clean ('/' :: name)))
                = (if R = ['/'] then R else R ++ ['/']) ++ joinSlash es))
        ∧ insideRoot R (Join R (FromSlash (Clean ('/' :: name)))) = true
        ∧ Join "/root".toList (FromSlash (Clean ('/' :: "../../etc/passwd".toList)))
            = "/root/etc/passwd".toList := by
  obtain ⟨s, hs⟩ : ∃ s, R = '/' :: s := by
    cases R with
    | nil => simp at habs
    | cons c cs =>
      simp only [List.head?_cons, Option.some.injEq] at habs
      exact ⟨cs, by rw [habs]⟩
  obtain ⟨rs, hrs, hrsp⟩ := clean_rooted s
  rw [← hs, hclean] at hrs
  obtain ⟨es, hes, hesp⟩ := clean_rooted name
  have hpe : pathElements R = rs := by rw [hrs]; exact pathElements_rooted rs hrsp
  have hall : ∀ e ∈ rs ++ es, properElement e := by
    intro e he
    rcases List.mem_append.1 he with h | h
    · exact hrsp e h
    · exact hesp e h
  have hjoin : Join R (FromSlash (Clean ('/' :: name))) = '/' :: joinSlash (rs ++ es) := by
    have hne : R ≠ [] := by rw [hrs]; simp
    unfold Join FromSlash
    simp only [Separator, if_true, hne, ne_eq, not_false_eq_true]
    rw [hes, hrs]
    exact clean_join_rooted rs es hrsp hesp
  refine ⟨es, by rw [hpe]; exact hjoin, by rw [hpe]; exact hrs, by rw [hpe]; exact hall,
    ?_, ?_, ?_, by decide⟩
  · rw [hjoin]
    have h1 := noDoubleSlash_joinSlash (rs ++ es) hall
    have h2 := joinSlash_head (rs ++ es) hall
    simp [noDoubleSlash, h1, h2]
  · by_cases he : es = []
    · left
      refine ⟨he, ?_⟩
      rw [hjoin, he, List.append_nil, hrs]
    · right
      refine ⟨he, ?_⟩
      rw [hjoin]
      by_cases hr : rs = []
      · subst hr
        have hR : R = ['/'] := by rw [hrs]; simp [joinSlash]
        simp [hR]
      · have hR : R ≠ ['/'] := by
          rw [hrs]
          intro h
          have : joinSlash rs = [] := by simpa using h
          cases rs with
          | nil => exact hr rfl
          | cons r rest =>
            have hr1 := (hrsp r (by simp)).1
            cases rest with
            | nil => simp [joinSlash] at this; exact hr1 this
            | cons r2 rest2 => simp [joinSlash] at this
        rw [if_neg hR, joinSlash_append rs es hr he, hrs]
        simp
  · rw [hjoin]
    unfold insideRoot
    rw [hpe, pathElements_rooted (rs ++ es) hall]
    exact List.isPrefixOf_iff_prefix.2 (List.prefix_append rs es)

/-- Witness of `lexical_containment` at the root `/root` and the name
`../../etc/passwd`. -/
theorem lexical_containment_witness :
    ∃ es : List Str,
      Join "/root".toList (FromSlash (Clean ('/' :: "../../etc/passwd".toList)))
          = '/' :: joinSlash (pathElements "/root".toList ++ es)
        ∧ insideRoot "/root".toList
            (Join "/root".toList (FromSlash (Clean ('/' :: "../../etc/passwd".toList))))
          = true := by
  obtain ⟨es, h1, _, _, _, _, h6, _⟩ :=
    lexical_containment "/root".toList "../../etc/passwd".toList (by decide) (by decide)
  exact ⟨es, h1, h6⟩

end Kfs
